import Mathlib

/-!
Verification development for the vendored-package checksum reconciler
(`fix_all_checksums.py`, `fix_checksums.py`, `scripts/fix_vendor_checksums.py`).

The scripts are embedded shallowly: file contents are byte lists, the
filesystem is an association list from paths to file data, the JSON manifest
is a structure holding the `files` map plus the untouched sibling fields,
printed lines are collected into a list of strings, and uncaught Python
exceptions become `Except.error`.  SHA-256 is implemented concretely (FIPS
180-4) over byte lists, so digests are real lowercase-hex SHA-256 strings.
-/

set_option maxRecDepth 10000

deriving instance DecidableEq for Except

/-! ### SHA-256 (FIPS 180-4) over byte lists -/

def rotr (n x : Nat) : Nat := ((x >>> n) ||| (x <<< (32 - n))) % 4294967296

def ch32 (x y z : Nat) : Nat := (x &&& y) ^^^ ((x ^^^ 4294967295) &&& z)

def maj32 (x y z : Nat) : Nat := (x &&& y) ^^^ (x &&& z) ^^^ (y &&& z)

def bsig0 (x : Nat) : Nat := rotr 2 x ^^^ rotr 13 x ^^^ rotr 22 x

def bsig1 (x : Nat) : Nat := rotr 6 x ^^^ rotr 11 x ^^^ rotr 25 x

def ssig0 (x : Nat) : Nat := rotr 7 x ^^^ rotr 18 x ^^^ (x >>> 3)

def ssig1 (x : Nat) : Nat := rotr 17 x ^^^ rotr 19 x ^^^ (x >>> 10)

def sha256K : List Nat :=
  [1116352408, 1899447441, 3049323471, 3921009573, 961987163, 1508970993,
   2453635748, 2870763221, 3624381080, 310598401, 607225278, 1426881987,
   1925078388, 2162078206, 2614888103, 3248222580, 3835390401, 4022224774,
   264347078, 604807628, 770255983, 1249150122, 1555081692, 1996064986,
   2554220882, 2821834349, 2952996808, 3210313671, 3336571891, 3584528711,
   113926993, 338241895, 666307205, 773529912, 1294757372, 1396182291,
   1695183700, 1986661051, 2177026350, 2456956037, 2730485921, 2820302411,
   3259730800, 3345764771, 3516065817, 3600352804, 4094571909, 275423344,
   430227734, 506948616, 659060556, 883997877, 958139571, 1322822218,
   1537002063, 1747873779, 1955562222, 2024104815, 2227730452, 2361852424,
   2428436474, 2756734187, 3204031479, 3329325298]

def sha256H0 : List Nat :=
  [1779033703, 3144134277, 1013904242, 2773480762,
   1359893119, 2600822924, 528734635, 1541459225]

/-- Big-endian byte encoding of `v` on `n` bytes. -/
def beBytes : Nat → Nat → List Nat
  | 0, _ => []
  | n + 1, v => beBytes n (v / 256) ++ [v % 256]

/-- SHA-256 padding: append `0x80`, zero bytes to 56 mod 64, then the
64-bit big-endian bit length. -/
def padMessage (msg : List Nat) : List Nat :=
  msg ++ [128] ++ List.replicate ((119 - msg.length % 64) % 64) 0 ++ beBytes 8 (msg.length * 8)

/-- Group bytes into big-endian 32-bit words. -/
def toWords : List Nat → List Nat
  | b0 :: b1 :: b2 :: b3 :: rest => (((b0 * 256 + b1) * 256 + b2) * 256 + b3) :: toWords rest
  | _ => []

/-- Split a word list into 16-word blocks (structural recursion on a fuel
bound so the kernel can evaluate it). -/
def toBlocksGo : Nat → List Nat → List (List Nat)
  | 0, _ => []
  | _, [] => []
  | n + 1, w :: ws => ((w :: ws).take 16) :: toBlocksGo n ((w :: ws).drop 16)

def toBlocks (l : List Nat) : List (List Nat) := toBlocksGo l.length l

/-- Message-schedule extension; `acc` holds the words produced so far in
reverse order. -/
def extendWords : Nat → List Nat → List Nat
  | 0, acc => acc.reverse
  | n + 1, acc =>
    extendWords n
      (((ssig1 (acc.getD 1 0) + acc.getD 6 0 + ssig0 (acc.getD 14 0) + acc.getD 15 0)
          % 4294967296) :: acc)

/-- One round of the SHA-256 compression function on the 8-word state. -/
def sha256round (st : List Nat) (kw : Nat × Nat) : List Nat :=
  match st with
  | [a, b, c, d, e, f, g, hh] =>
    let t1 := (hh + bsig1 e + ch32 e f g + kw.1 + kw.2) % 4294967296
    let t2 := (bsig0 a + maj32 a b c) % 4294967296
    [(t1 + t2) % 4294967296, a, b, c, (d + t1) % 4294967296, e, f, g]
  | other => other

/-- Compress one 16-word block into the state. -/
def sha256compress (st : List Nat) (block : List Nat) : List Nat :=
  let ws := extendWords 48 block.reverse
  let st2 := (sha256K.zip ws).foldl sha256round st
  (st.zip st2).map (fun p => (p.1 + p.2) % 4294967296)

/-- SHA-256 digest of a byte list, as 32 bytes. -/
def sha256bytes (msg : List Nat) : List Nat :=
  ((toBlocks (toWords (padMessage msg))).foldl sha256compress sha256H0).foldr
    (fun w acc => beBytes 4 w ++ acc) []

/-- Lowercase hex digit. -/
def hexChar (n : Nat) : Char := if n < 10 then Char.ofNat (48 + n) else Char.ofNat (87 + n)

/-- Two lowercase hex digits for one byte. -/
def byteHex (b : Nat) : String := String.mk [hexChar (b / 16), hexChar (b % 16)]

/-- Lowercase-hex SHA-256 digest of a byte list: the reference meaning of
`hashlib.sha256(data).hexdigest()`. -/
def sha256hex (msg : List Nat) : String := String.join ((sha256bytes msg).map byteHex)

/-! ### The `hashlib` streaming interface

A `hashlib.sha256()` object is modelled by the bytes fed to it so far:
`update` concatenates, `hexdigest` hashes everything received. -/

structure HashCtx where
  buf : List Nat
deriving DecidableEq

def HashCtx.update (h : HashCtx) (bs : List Nat) : HashCtx := ⟨h.buf ++ bs⟩

def HashCtx.hexdigest (h : HashCtx) : String := sha256hex h.buf

/-- `hashlib.sha256()`. -/
def hashlibSha256 : HashCtx := ⟨[]⟩

/-- `f.read(4096)` loop: split the file content into 4096-byte chunks
(`iter(lambda: f.read(4096), b"")`). -/
def readChunksGo : Nat → List Nat → List (List Nat)
  | 0, _ => []
  | _, [] => []
  | n + 1, b :: bs => ((b :: bs).take 4096) :: readChunksGo n ((b :: bs).drop 4096)

def readChunks (l : List Nat) : List (List Nat) := readChunksGo l.length l

/-- `sha256_file` from `fix_all_checksums.py`: one `update` with the whole
content (`f.read()`), then `hexdigest`. -/
def sha256_file (content : List Nat) : String :=
  (hashlibSha256.update content).hexdigest

/-- `calculate_sha256` from `fix_checksums.py` and
`scripts/fix_vendor_checksums.py`: stream the content in 4096-byte chunks
through `update`, then `hexdigest`. -/
def calculate_sha256 (content : List Nat) : String :=
  ((readChunks content).foldl HashCtx.update hashlibSha256).hexdigest

/-! ### Filesystem and manifest model

A path maps either to readable content, or to a file that exists but whose
open/read raises (permission error, I/O error).  An absent key is a path for
which `os.path.exists` is false. -/

inductive FileData
  | readable (content : List Nat)
  | unreadable
deriving DecidableEq

abbrev FS := List (String × FileData)

/-- `os.path.join` as used by the scripts (POSIX, relative components). -/
def pathJoin (a b : String) : String := a ++ "/" ++ b

/-- Parsed `.cargo-checksum.json`: the `files` map (insertion-ordered, as a
Python dict) plus every sibling field, which the scripts never touch. -/
structure Manifest where
  files : List (String × String)
  extra : List (String × String)
deriving DecidableEq

/-- Python dict / filesystem lookup on an association list: first binding of
the key wins. -/
def lookupKV {α : Type} (k : String) : List (String × α) → Option α
  | [] => none
  | (k2, v) :: rest => if k2 = k then some v else lookupKV k rest

/-- Python dict assignment `d[k] = v` for a key `k` already present: replace
the value in place, keeping insertion order. -/
def setValue (k v : String) : List (String × String) → List (String × String)
  | [] => []
  | (k2, v2) :: rest => if k2 = k then (k2, v) :: rest else (k2, v2) :: setValue k v rest

/-- The manifest file of a package directory: `none` if the file is absent,
`some none` if present but `json.load` raises, `some (some m)` if it parses. -/
abbrev ManifestFile := Option (Option Manifest)

/-- Result of one single-package run that terminated normally: the state of
the manifest file afterwards, whether it was rewritten, and the printed
lines. -/
structure Outcome where
  mfile : ManifestFile
  wrote : Bool
  out : List String
deriving DecidableEq

/-- Result of a whole process invocation: printed lines, exit status, state
of the manifest file.  An uncaught exception exits with status 1. -/
structure MainResult where
  out : List String
  exitCode : Nat
  mfile : ManifestFile
deriving DecidableEq

/-! ### `fix_checksums.py` (strict single-package variant) -/

namespace FixChecksums

/-- The `for filename in data.get("files", {})` loop: reads the current
value `data["files"][filename]`, recomputes the digest, assigns on mismatch.
An unreadable file or a missing key raises out of the loop (`Except.error`
carries the lines printed before the exception). -/
def fixLoop (fs : FS) (package_dir : String) :
    List String → List (String × String) → Bool → List String →
    Except (List String) (List (String × String) × Bool × List String)
  | [], files, changed, out => .ok (files, changed, out)
  | filename :: rest, files, changed, out =>
    let filepath := pathJoin package_dir filename
    match lookupKV filepath fs with
    | some (FileData.readable c) =>
      let current_hash := calculate_sha256 c
      match lookupKV filename files with
      | none => .error out
      | some old =>
        if old ≠ current_hash then
          fixLoop fs package_dir rest (setValue filename current_hash files) true
            (out ++ ["Updating hash for " ++ filename])
        else
          fixLoop fs package_dir rest files changed out
    | some FileData.unreadable => .error out
    | none =>
      fixLoop fs package_dir rest files changed (out ++ ["File not found: " ++ filename])

/-- `fix_checksums(package_dir)` from `fix_checksums.py`. -/
def fix_checksums (fs : FS) (package_dir : String) (man : ManifestFile) :
    Except (List String) Outcome :=
  match man with
  | none => .ok ⟨none, false, ["No checksum file found in " ++ package_dir]⟩
  | some none => .error []
  | some (some data) =>
    match fixLoop fs package_dir (data.files.map Prod.fst) data.files false [] with
    | .error out => .error out
    | .ok (files2, changed, out) =>
      if changed then
        .ok ⟨some (some ⟨files2, data.extra⟩), true, out ++ ["Checksums updated."]⟩
      else
        .ok ⟨some (some data), false, out ++ ["No changes needed."]⟩

/-- The `__main__` block of `fix_checksums.py`. -/
def main (argv : List String) (fs : FS) (man : ManifestFile) : MainResult :=
  if argv.length < 2 then ⟨["Usage: python3 fix_checksums.py <package_dir>"], 1, man⟩
  else
    match fix_checksums fs (argv.getD 1 "") man with
    | .ok o => ⟨o.out, 0, o.mfile⟩
    | .error out => ⟨out, 1, man⟩

end FixChecksums

/-! ### `scripts/fix_vendor_checksums.py` (strict single-package variant,
iterating `files.items()`) -/

namespace FixVendor

/-- The `for rel_path, old_checksum in files.items()` loop. -/
def fixLoop (fs : FS) (crate_path : String) :
    List (String × String) → List (String × String) → Bool → List String →
    Except (List String) (List (String × String) × Bool × List String)
  | [], files, updated, out => .ok (files, updated, out)
  | (rel_path, old_checksum) :: rest, files, updated, out =>
    let full_path := pathJoin crate_path rel_path
    match lookupKV full_path fs with
    | none =>
      fixLoop fs crate_path rest files updated
        (out ++ ["Warning: File " ++ rel_path ++ " listed in checksums but not found."])
    | some FileData.unreadable => .error out
    | some (FileData.readable c) =>
      let new_checksum := calculate_sha256 c
      if new_checksum ≠ old_checksum then
        fixLoop fs crate_path rest (setValue rel_path new_checksum files) true
          (out ++ ["Updating checksum for " ++ rel_path ++ ": " ++ old_checksum ++ " -> "
                    ++ new_checksum])
      else
        fixLoop fs crate_path rest files updated out

/-- `fix_checksums(crate_path)` from `scripts/fix_vendor_checksums.py`. -/
def fix_checksums (fs : FS) (crate_path : String) (man : ManifestFile) :
    Except (List String) Outcome :=
  match man with
  | none =>
    .ok ⟨none, false,
         ["Error: " ++ pathJoin crate_path ".cargo-checksum.json" ++ " not found."]⟩
  | some none => .error []
  | some (some data) =>
    match fixLoop fs crate_path data.files data.files false [] with
    | .error out => .error out
    | .ok (files2, updated, out) =>
      if updated then
        .ok ⟨some (some ⟨files2, data.extra⟩), true,
             out ++ ["Updated checksums in " ++ pathJoin crate_path ".cargo-checksum.json"]⟩
      else
        .ok ⟨some (some data), false, out ++ ["No checksum mismatches found."]⟩

/-- The `__main__` block of `scripts/fix_vendor_checksums.py`. -/
def main (argv : List String) (fs : FS) (man : ManifestFile) : MainResult :=
  if argv.length < 2 then ⟨["Usage: python3 fix_vendor_checksums.py <crate_path>"], 1, man⟩
  else
    match fix_checksums fs (argv.getD 1 "") man with
    | .ok o => ⟨o.out, 0, o.mfile⟩
    | .error out => ⟨out, 1, man⟩

end FixVendor

/-! ### `fix_all_checksums.py` (whole-tree variant) -/

def VENDOR_ROOT : String := "vendor"

/-- A package subdirectory of the vendor root, represented by the state of
its `.cargo-checksum.json` file; the package's data files live in the global
`FS` under `vendor/<name>/<relpath>`. -/
structure Package where
  manifest : ManifestFile
deriving DecidableEq

/-- One entry of `os.listdir(VENDOR_ROOT)`: either not a directory (skipped)
or a package directory. -/
inductive DirEntry
  | plainFile
  | subdir (pkg : Package)
deriving DecidableEq

namespace FixAll

/-- The inner `for filename in data.get("files", {})` loop of
`fix_all_checksums.py`: missing files are skipped silently (no `else`
branch), and the bare `except: pass` swallows any error around the hash
computation and comparison. -/
def fixLoop (fs : FS) (package_dir package : String) :
    List String → List (String × String) → Bool → List String →
    List (String × String) × Bool × List String
  | [], files, modified, out => (files, modified, out)
  | filename :: rest, files, modified, out =>
    let filepath := pathJoin package_dir filename
    match lookupKV filepath fs with
    | some (FileData.readable c) =>
      let actual := sha256_file c
      match lookupKV filename files with
      | none => fixLoop fs package_dir package rest files modified out
      | some old =>
        if actual ≠ old then
          fixLoop fs package_dir package rest (setValue filename actual files) true
            (out ++ ["Updating " ++ package ++ "/" ++ filename])
        else
          fixLoop fs package_dir package rest files modified out
    | some FileData.unreadable => fixLoop fs package_dir package rest files modified out
    | none => fixLoop fs package_dir package rest files modified out

/-- The per-package body of the `for package in os.listdir(VENDOR_ROOT)`
loop: absent manifest is skipped silently, a `json.load` failure hits the
bare `except: continue`, and the manifest is rewritten only if `modified`.
Returns the package afterwards, the number of manifest writes (0 or 1) and
the printed lines. -/
def processPackage (fs : FS) (package : String) (pkg : Package) :
    Package × Nat × List String :=
  match pkg.manifest with
  | none => (pkg, 0, [])
  | some none => (pkg, 0, [])
  | some (some data) =>
    let package_dir := pathJoin VENDOR_ROOT package
    let r := fixLoop fs package_dir package (data.files.map Prod.fst) data.files false []
    if r.2.1 then (⟨some (some ⟨r.1, data.extra⟩)⟩, 1, r.2.2)
    else (pkg, 0, r.2.2)

/-- The loop over `os.listdir(VENDOR_ROOT)`; non-directory entries are
skipped. -/
def processEntries (fs : FS) :
    List (String × DirEntry) → List (String × DirEntry) × Nat × List String
  | [] => ([], 0, [])
  | (name, DirEntry.plainFile) :: rest =>
    let r := processEntries fs rest
    ((name, DirEntry.plainFile) :: r.1, r.2.1, r.2.2)
  | (name, DirEntry.subdir pkg) :: rest =>
    let p := processPackage fs name pkg
    let r := processEntries fs rest
    ((name, DirEntry.subdir p.1) :: r.1, p.2.1 + r.2.1, p.2.2 ++ r.2.2)

/-- Result of the whole `fix_all_checksums.py` run. -/
structure AllResult where
  root : Option (List (String × DirEntry))
  writes : Nat
  out : List String
  exitCode : Nat
deriving DecidableEq

/-- The module body of `fix_all_checksums.py`: `exit(0)` with a notice when
the vendor root is absent, otherwise process every listed entry and print
the final summary line. -/
def main (fs : FS) (root : Option (List (String × DirEntry))) : AllResult :=
  match root with
  | none => ⟨none, 0, ["No vendor directory found."], 0⟩
  | some entries =>
    let r := processEntries fs entries
    ⟨some r.1, r.2.1, r.2.2 ++ ["All checksums verified/updated."], 0⟩

end FixAll

/-! ### Basic lemmas: association lists, paths, the digest functions -/

theorem lookupKV_eq_some_mem {α : Type} {l : List (String × α)} {p : String} {v : α}
    (h : lookupKV p l = some v) : (p, v) ∈ l := by
  induction l with
  | nil => simp [lookupKV] at h
  | cons kv rest ih =>
    obtain ⟨k2, v2⟩ := kv
    by_cases hk : k2 = p
    · subst hk
      simp [lookupKV] at h
      subst h
      exact List.mem_cons_self _ _
    · simp [lookupKV, hk] at h
      exact List.mem_cons_of_mem _ (ih h)

theorem mem_lookupKV {α : Type} {l : List (String × α)} {p : String} {v : α}
    (hnd : (l.map Prod.fst).Nodup) (h : (p, v) ∈ l) : lookupKV p l = some v := by
  induction l with
  | nil => simp at h
  | cons kv rest ih =>
    obtain ⟨k2, v2⟩ := kv
    simp only [List.map_cons, List.nodup_cons] at hnd
    rcases List.mem_cons.mp h with h1 | h1
    · rw [Prod.mk.injEq] at h1
      simp [lookupKV, h1.1, h1.2]
    · have hne : k2 ≠ p := by
        intro he
        exact hnd.1 (he ▸ (List.mem_map.mpr ⟨(p, v), h1, rfl⟩))
      simp [lookupKV, hne]
      exact ih hnd.2 h1

theorem lookupKV_isSome_of_mem_keys {α : Type} {l : List (String × α)} {p : String}
    (h : p ∈ l.map Prod.fst) : ∃ v, lookupKV p l = some v := by
  induction l with
  | nil => simp at h
  | cons kv rest ih =>
    obtain ⟨k2, v2⟩ := kv
    by_cases hk : k2 = p
    · exact ⟨v2, by simp [lookupKV, hk]⟩
    · simp only [List.map_cons, List.mem_cons] at h
      rcases h with h | h
      · exact absurd h.symm hk
      · simpa [lookupKV, hk] using ih h

theorem setValue_map_fst (k v : String) (l : List (String × String)) :
    (setValue k v l).map Prod.fst = l.map Prod.fst := by
  induction l with
  | nil => rfl
  | cons kv rest ih =>
    obtain ⟨k2, v2⟩ := kv
    by_cases hk : k2 = k <;> simp [setValue, hk, ih]

theorem lookupKV_setValue_self {l : List (String × String)} {k : String}
    (hm : k ∈ l.map Prod.fst) (v : String) : lookupKV k (setValue k v l) = some v := by
  induction l with
  | nil => simp at hm
  | cons kv rest ih =>
    obtain ⟨k2, v2⟩ := kv
    by_cases hk : k2 = k
    · simp [setValue, hk, lookupKV]
    · simp only [List.map_cons, List.mem_cons] at hm
      rcases hm with hm | hm
      · exact absurd hm.symm hk
      · simpa [setValue, hk, lookupKV] using ih hm

theorem lookupKV_setValue_ne {p k : String} (hne : p ≠ k) (v : String)
    (l : List (String × String)) : lookupKV p (setValue k v l) = lookupKV p l := by
  induction l with
  | nil => rfl
  | cons kv rest ih =>
    obtain ⟨k2, v2⟩ := kv
    by_cases hk : k2 = k
    · subst hk
      have hkp : ¬k2 = p := fun he => hne he.symm
      simp [setValue, lookupKV, hkp]
    · by_cases hp : k2 = p
      · subst hp
        simp [setValue, lookupKV, hk, hne]
      · simp [setValue, hk, lookupKV, hp, ih]

theorem pathJoin_right_inj {d a b : String} (h : pathJoin d a = pathJoin d b) : a = b := by
  have h2 := congrArg String.data h
  simp only [pathJoin, String.data_append, List.append_assoc] at h2
  have h3 : a.data = b.data :=
    List.append_cancel_left (List.append_cancel_left h2)
  cases a
  cases b
  exact congrArg String.mk h3

theorem foldl_update_buf (cs : List (List Nat)) (h : HashCtx) :
    (cs.foldl HashCtx.update h).buf = h.buf ++ cs.flatten := by
  induction cs generalizing h with
  | nil => simp
  | cons c rest ih => simp [ih, HashCtx.update, List.append_assoc]

theorem readChunksGo_join :
    ∀ (n : Nat) (l : List Nat), l.length ≤ n → (readChunksGo n l).flatten = l := by
  intro n
  induction n with
  | zero =>
    intro l hl
    have : l = [] := List.eq_nil_of_length_eq_zero (Nat.le_zero.mp hl)
    subst this
    rfl
  | succ n ih =>
    intro l hl
    match l with
    | [] => rfl
    | b :: bs =>
      have hdrop : ((b :: bs).drop 4096).length ≤ n := by
        simp only [List.length_drop, List.length_cons]
        simp only [List.length_cons] at hl
        omega
      simp only [readChunksGo, List.flatten_cons, ih _ hdrop, List.take_append_drop]

theorem readChunks_join (l : List Nat) : (readChunks l).flatten = l :=
  readChunksGo_join _ _ le_rfl

theorem calculate_sha256_eq (c : List Nat) : calculate_sha256 c = sha256hex c := by
  simp [calculate_sha256, HashCtx.hexdigest, foldl_update_buf, hashlibSha256, readChunks_join]

theorem sha256_file_eq (c : List Nat) : sha256_file c = sha256hex c := by
  simp [sha256_file, HashCtx.update, HashCtx.hexdigest, hashlibSha256]

theorem lookupKV_mem_keys {α : Type} {l : List (String × α)} {p : String} {v : α}
    (h : lookupKV p l = some v) : p ∈ l.map Prod.fst :=
  List.mem_map.mpr ⟨(p, v), lookupKV_eq_some_mem h, rfl⟩

/-! ### Lemmas about the `fix_checksums.py` loop -/

namespace FixChecksums

theorem fixLoop_keys (fs : FS) (dir : String) :
    ∀ (ks : List String) (files : List (String × String)) (ch : Bool) (out : List String)
      (r : List (String × String) × Bool × List String),
      fixLoop fs dir ks files ch out = Except.ok r → r.1.map Prod.fst = files.map Prod.fst := by
  intro ks
  induction ks with
  | nil =>
    intro files ch out r h
    simp only [fixLoop, Except.ok.injEq] at h
    rw [← h]
  | cons k rest ih =>
    intro files ch out r h
    simp only [fixLoop] at h
    split at h
    next c heq =>
      split at h
      next hlk => simp at h
      next old hlk =>
        split at h
        next hne => rw [ih _ _ _ _ h, setValue_map_fst]
        next hne => exact ih _ _ _ _ h
    next heq => simp at h
    next heq => exact ih _ _ _ _ h

theorem fixLoop_out_mono (fs : FS) (dir : String) :
    ∀ (ks : List String) (files : List (String × String)) (ch : Bool) (out : List String)
      (r : List (String × String) × Bool × List String),
      fixLoop fs dir ks files ch out = Except.ok r → ∃ t, r.2.2 = out ++ t := by
  intro ks
  induction ks with
  | nil =>
    intro files ch out r h
    simp only [fixLoop, Except.ok.injEq] at h
    exact ⟨[], by rw [← h]; simp⟩
  | cons k rest ih =>
    intro files ch out r h
    simp only [fixLoop] at h
    split at h
    next c heq =>
      split at h
      next hlk => simp at h
      next old hlk =>
        split at h
        next hne =>
          obtain ⟨t, ht⟩ := ih _ _ _ _ h
          exact ⟨("Updating hash for " ++ k) :: t, by rw [ht]; simp⟩
        next hne => exact ih _ _ _ _ h
    next heq => simp at h
    next heq =>
      obtain ⟨t, ht⟩ := ih _ _ _ _ h
      exact ⟨("File not found: " ++ k) :: t, by rw [ht]; simp⟩

theorem fixLoop_lookup_notmem (fs : FS) (dir : String) :
    ∀ (ks : List String) (files : List (String × String)) (ch : Bool) (out : List String)
      (r : List (String × String) × Bool × List String) (p : String),
      p ∉ ks → fixLoop fs dir ks files ch out = Except.ok r →
      lookupKV p r.1 = lookupKV p files := by
  intro ks
  induction ks with
  | nil =>
    intro files ch out r p _ h
    simp only [fixLoop, Except.ok.injEq] at h
    rw [← h]
  | cons k rest ih =>
    intro files ch out r p hp h
    have hpk : p ≠ k := fun he => hp (he ▸ List.mem_cons_self k rest)
    have hpr : p ∉ rest := fun hm => hp (List.mem_cons_of_mem _ hm)
    simp only [fixLoop] at h
    split at h
    next c heq =>
      split at h
      next hlk => simp at h
      next old hlk =>
        split at h
        next hne => rw [ih _ _ _ _ _ hpr h, lookupKV_setValue_ne hpk]
        next hne => exact ih _ _ _ _ _ hpr h
    next heq => simp at h
    next heq => exact ih _ _ _ _ _ hpr h

theorem fixLoop_lookup_path (fs : FS) (dir : String) :
    ∀ (ks : List String) (files : List (String × String)) (ch : Bool) (out : List String)
      (r : List (String × String) × Bool × List String) (p : String),
      (∀ c', lookupKV (pathJoin dir p) fs ≠ some (FileData.readable c')) →
      fixLoop fs dir ks files ch out = Except.ok r →
      lookupKV p r.1 = lookupKV p files := by
  intro ks
  induction ks with
  | nil =>
    intro files ch out r p _ h
    simp only [fixLoop, Except.ok.injEq] at h
    rw [← h]
  | cons k rest ih =>
    intro files ch out r p hno h
    simp only [fixLoop] at h
    split at h
    next c heq =>
      have hpk : p ≠ k := by
        intro he
        exact hno c (he ▸ heq)
      split at h
      next hlk => simp at h
      next old hlk =>
        split at h
        next hne => rw [ih _ _ _ _ _ hno h, lookupKV_setValue_ne hpk]
        next hne => exact ih _ _ _ _ _ hno h
    next heq => simp at h
    next heq => exact ih _ _ _ _ _ hno h

theorem fixLoop_lookup_readable (fs : FS) (dir : String) :
    ∀ (ks : List String) (files : List (String × String)) (ch : Bool) (out : List String)
      (r : List (String × String) × Bool × List String) (p : String) (c : List Nat),
      p ∈ ks → lookupKV (pathJoin dir p) fs = some (FileData.readable c) →
      fixLoop fs dir ks files ch out = Except.ok r →
      lookupKV p r.1 = some (sha256hex c) := by
  intro ks
  induction ks with
  | nil => intro files ch out r p c hp; simp at hp
  | cons k rest ih =>
    intro files ch out r p c hp hr h
    by_cases hkp : k = p
    · subst hkp
      simp only [fixLoop] at h
      split at h
      next c2 heq =>
        rw [hr] at heq
        simp only [Option.some.injEq, FileData.readable.injEq] at heq
        subst heq
        split at h
        next hlk => simp at h
        next old hlk =>
          split at h
          next hne =>
            by_cases hrest : k ∈ rest
            · exact ih _ _ _ _ _ _ hrest hr h
            · rw [fixLoop_lookup_notmem fs dir _ _ _ _ _ _ hrest h,
                lookupKV_setValue_self (lookupKV_mem_keys hlk), calculate_sha256_eq]
          next hne =>
            have hold : old = calculate_sha256 c := by
              by_contra hcon
              exact hne hcon
            by_cases hrest : k ∈ rest
            · exact ih _ _ _ _ _ _ hrest hr h
            · rw [fixLoop_lookup_notmem fs dir _ _ _ _ _ _ hrest h, hlk, hold,
                calculate_sha256_eq]
      next heq => rw [hr] at heq; simp at heq
      next heq => rw [hr] at heq; simp at heq
    · have hpr : p ∈ rest := by
        rcases List.mem_cons.mp hp with he | hm
        · exact absurd he.symm hkp
        · exact hm
      simp only [fixLoop] at h
      split at h
      next c2 heq =>
        split at h
        next hlk => simp at h
        next old hlk =>
          split at h
          next hne => exact ih _ _ _ _ _ _ hpr hr h
          next hne => exact ih _ _ _ _ _ _ hpr hr h
      next heq => simp at h
      next heq => exact ih _ _ _ _ _ _ hpr hr h

theorem fixLoop_missing_warns (fs : FS) (dir : String) :
    ∀ (ks : List String) (files : List (String × String)) (ch : Bool) (out : List String)
      (r : List (String × String) × Bool × List String) (p : String),
      p ∈ ks → lookupKV (pathJoin dir p) fs = none →
      fixLoop fs dir ks files ch out = Except.ok r →
      ("File not found: " ++ p) ∈ r.2.2 := by
  intro ks
  induction ks with
  | nil => intro files ch out r p hp; simp at hp
  | cons k rest ih =>
    intro files ch out r p hp hmiss h
    by_cases hkp : k = p
    · subst hkp
      simp only [fixLoop] at h
      split at h
      next c2 heq => rw [hmiss] at heq; simp at heq
      next heq => rw [hmiss] at heq; simp at heq
      next heq =>
        obtain ⟨t, ht⟩ := fixLoop_out_mono fs dir _ _ _ _ _ h
        rw [ht]
        simp
    · have hpr : p ∈ rest := by
        rcases List.mem_cons.mp hp with he | hm
        · exact absurd he.symm hkp
        · exact hm
      simp only [fixLoop] at h
      split at h
      next c2 heq =>
        split at h
        next hlk => simp at h
        next old hlk =>
          split at h
          next hne => exact ih _ _ _ _ _ hpr hmiss h
          next hne => exact ih _ _ _ _ _ hpr hmiss h
      next heq => simp at h
      next heq => exact ih _ _ _ _ _ hpr hmiss h

theorem fixLoop_flag_mono (fs : FS) (dir : String) :
    ∀ (ks : List String) (files : List (String × String)) (out : List String)
      (r : List (String × String) × Bool × List String),
      fixLoop fs dir ks files true out = Except.ok r → r.2.1 = true := by
  intro ks
  induction ks with
  | nil =>
    intro files out r h
    simp only [fixLoop, Except.ok.injEq] at h
    rw [← h]
  | cons k rest ih =>
    intro files out r h
    simp only [fixLoop] at h
    split at h
    next c heq =>
      split at h
      next hlk => simp at h
      next old hlk =>
        split at h
        next hne => exact ih _ _ _ h
        next hne => exact ih _ _ _ h
    next heq => simp at h
    next heq => exact ih _ _ _ h

theorem fixLoop_unchanged (fs : FS) (dir : String) :
    ∀ (ks : List String) (files : List (String × String)) (ch : Bool) (out : List String)
      (r : List (String × String) × Bool × List String),
      fixLoop fs dir ks files ch out = Except.ok r → r.2.1 = false →
      r.1 = files ∧ ch = false := by
  intro ks
  induction ks with
  | nil =>
    intro files ch out r h hflag
    simp only [fixLoop, Except.ok.injEq] at h
    rw [← h] at hflag ⊢
    exact ⟨rfl, hflag⟩
  | cons k rest ih =>
    intro files ch out r h hflag
    simp only [fixLoop] at h
    split at h
    next c heq =>
      split at h
      next hlk => simp at h
      next old hlk =>
        split at h
        next hne => exact absurd (fixLoop_flag_mono fs dir _ _ _ _ h) (by rw [hflag]; simp)
        next hne => exact ih _ _ _ _ h hflag
    next heq => simp at h
    next heq => exact ih _ _ _ _ h hflag

theorem fixLoop_changed_witness (fs : FS) (dir : String) :
    ∀ (ks : List String) (files : List (String × String)) (out : List String)
      (r : List (String × String) × Bool × List String),
      fixLoop fs dir ks files false out = Except.ok r → r.2.1 = true →
      ∃ p c old, p ∈ ks ∧ lookupKV (pathJoin dir p) fs = some (FileData.readable c) ∧
        lookupKV p files = some old ∧ old ≠ sha256hex c := by
  intro ks
  induction ks with
  | nil =>
    intro files out r h hflag
    simp only [fixLoop, Except.ok.injEq] at h
    rw [← h] at hflag
    simp at hflag
  | cons k rest ih =>
    intro files out r h hflag
    simp only [fixLoop] at h
    split at h
    next c heq =>
      split at h
      next hlk => simp at h
      next old hlk =>
        split at h
        next hne =>
          refine ⟨k, c, old, List.mem_cons_self k rest, heq, hlk, ?_⟩
          rw [← calculate_sha256_eq]
          exact hne
        next hne =>
          obtain ⟨p, c2, old2, hp, hr2, hl2, hne2⟩ := ih _ _ _ h hflag
          exact ⟨p, c2, old2, List.mem_cons_of_mem _ hp, hr2, hl2, hne2⟩
    next heq => simp at h
    next heq =>
      obtain ⟨p, c2, old2, hp, hr2, hl2, hne2⟩ := ih _ _ _ h hflag
      exact ⟨p, c2, old2, List.mem_cons_of_mem _ hp, hr2, hl2, hne2⟩

theorem fixLoop_err_of_unreadable (fs : FS) (dir : String) :
    ∀ (ks : List String) (files : List (String × String)) (ch : Bool) (out : List String)
      (p : String),
      p ∈ ks → lookupKV (pathJoin dir p) fs = some FileData.unreadable →
      ∃ e, fixLoop fs dir ks files ch out = Except.error e := by
  intro ks
  induction ks with
  | nil => intro files ch out p hp; simp at hp
  | cons k rest ih =>
    intro files ch out p hp hbad
    by_cases hkp : k = p
    · subst hkp
      simp only [fixLoop, hbad]
      exact ⟨out, rfl⟩
    · have hpr : p ∈ rest := by
        rcases List.mem_cons.mp hp with he | hm
        · exact absurd he.symm hkp
        · exact hm
      simp only [fixLoop]
      cases hfp : lookupKV (pathJoin dir k) fs with
      | none => exact ih _ _ _ _ hpr hbad
      | some fd =>
        cases fd with
        | readable c =>
          cases hlk : lookupKV k files with
          | none => exact ⟨out, rfl⟩
          | some old =>
            by_cases hne : old ≠ calculate_sha256 c
            · simpa [hne] using ih (setValue k (calculate_sha256 c) files) true
                (out ++ ["Updating hash for " ++ k]) _ hpr hbad
            · simpa [hne] using ih files ch out _ hpr hbad
        | unreadable => exact ⟨out, rfl⟩

theorem fixLoop_ok_of_no_unreadable (fs : FS) (dir : String) :
    ∀ (ks : List String) (files : List (String × String)) (ch : Bool) (out : List String),
      (∀ k ∈ ks, lookupKV (pathJoin dir k) fs ≠ some FileData.unreadable) →
      (∀ k ∈ ks, k ∈ files.map Prod.fst) →
      ∃ r, fixLoop fs dir ks files ch out = Except.ok r := by
  intro ks
  induction ks with
  | nil => intro files ch out _ _; exact ⟨(files, ch, out), rfl⟩
  | cons k rest ih =>
    intro files ch out hno hkeys
    simp only [fixLoop]
    cases hfp : lookupKV (pathJoin dir k) fs with
    | none =>
      exact ih _ _ _ (fun j hj => hno j (List.mem_cons_of_mem _ hj))
        (fun j hj => hkeys j (List.mem_cons_of_mem _ hj))
    | some fd =>
      cases fd with
      | readable c =>
        obtain ⟨old, hold⟩ := lookupKV_isSome_of_mem_keys (hkeys k (List.mem_cons_self k rest))
        rw [hold]
        by_cases hne : old ≠ calculate_sha256 c
        · simpa [hne] using ih (setValue k (calculate_sha256 c) files) true
            (out ++ ["Updating hash for " ++ k])
            (fun j hj => hno j (List.mem_cons_of_mem _ hj))
            (fun j hj => by
              rw [setValue_map_fst]
              exact hkeys j (List.mem_cons_of_mem _ hj))
        · simpa [hne] using ih files ch out
            (fun j hj => hno j (List.mem_cons_of_mem _ hj))
            (fun j hj => hkeys j (List.mem_cons_of_mem _ hj))
      | unreadable => exact absurd hfp (hno k (List.mem_cons_self k rest))

theorem fixLoop_second_run (fs : FS) (dir : String) :
    ∀ (ks : List String) (files : List (String × String)) (ch : Bool) (out : List String),
      (∀ k ∈ ks, lookupKV (pathJoin dir k) fs = none ∨
        ∃ c, lookupKV (pathJoin dir k) fs = some (FileData.readable c) ∧
          lookupKV k files = some (sha256hex c)) →
      ∃ t, fixLoop fs dir ks files ch out = Except.ok (files, ch, out ++ t) := by
  intro ks
  induction ks with
  | nil => intro files ch out _; exact ⟨[], by simp [fixLoop]⟩
  | cons k rest ih =>
    intro files ch out hall
    rcases hall k (List.mem_cons_self k rest) with hmiss | ⟨c, hread, hlkv⟩
    · simp only [fixLoop, hmiss]
      obtain ⟨t, ht⟩ := ih files ch (out ++ ["File not found: " ++ k])
        (fun j hj => hall j (List.mem_cons_of_mem _ hj))
      exact ⟨("File not found: " ++ k) :: t, by rw [ht]; simp⟩
    · simp only [fixLoop, hread, hlkv]
      have heqh : calculate_sha256 c = sha256hex c := calculate_sha256_eq c
      simp only [heqh, ne_eq, not_true_eq_false, if_false, ite_false]
      exact ih files ch out (fun j hj => hall j (List.mem_cons_of_mem _ hj))

end FixChecksums

/-! ### Lemmas about the `scripts/fix_vendor_checksums.py` loop -/

namespace FixVendor

theorem vendorLoop_keys (fs : FS) (dir : String) :
    ∀ (es : List (String × String)) (files : List (String × String)) (upd : Bool)
      (out : List String) (r : List (String × String) × Bool × List String),
      fixLoop fs dir es files upd out = Except.ok r → r.1.map Prod.fst = files.map Prod.fst := by
  intro es
  induction es with
  | nil =>
    intro files upd out r h
    simp only [fixLoop, Except.ok.injEq] at h
    rw [← h]
  | cons kv rest ih =>
    intro files upd out r h
    obtain ⟨k, v⟩ := kv
    simp only [fixLoop] at h
    split at h
    next heq => exact ih _ _ _ _ h
    next heq => simp at h
    next c heq =>
      split at h
      next hne => rw [ih _ _ _ _ h, setValue_map_fst]
      next hne => exact ih _ _ _ _ h

theorem vendorLoop_out_mono (fs : FS) (dir : String) :
    ∀ (es : List (String × String)) (files : List (String × String)) (upd : Bool)
      (out : List String) (r : List (String × String) × Bool × List String),
      fixLoop fs dir es files upd out = Except.ok r → ∃ t, r.2.2 = out ++ t := by
  intro es
  induction es with
  | nil =>
    intro files upd out r h
    simp only [fixLoop, Except.ok.injEq] at h
    exact ⟨[], by rw [← h]; simp⟩
  | cons kv rest ih =>
    intro files upd out r h
    obtain ⟨k, v⟩ := kv
    simp only [fixLoop] at h
    split at h
    next heq =>
      obtain ⟨t, ht⟩ := ih _ _ _ _ h
      exact ⟨("Warning: File " ++ k ++ " listed in checksums but not found.") :: t,
        by rw [ht]; simp⟩
    next heq => simp at h
    next c heq =>
      split at h
      next hne =>
        obtain ⟨t, ht⟩ := ih _ _ _ _ h
        exact ⟨("Updating checksum for " ++ k ++ ": " ++ v ++ " -> " ++ calculate_sha256 c) :: t,
          by rw [ht]; simp⟩
      next hne => exact ih _ _ _ _ h

theorem vendorLoop_lookup_notmem (fs : FS) (dir : String) :
    ∀ (es : List (String × String)) (files : List (String × String)) (upd : Bool)
      (out : List String) (r : List (String × String) × Bool × List String) (p : String),
      p ∉ es.map Prod.fst → fixLoop fs dir es files upd out = Except.ok r →
      lookupKV p r.1 = lookupKV p files := by
  intro es
  induction es with
  | nil =>
    intro files upd out r p _ h
    simp only [fixLoop, Except.ok.injEq] at h
    rw [← h]
  | cons kv rest ih =>
    intro files upd out r p hp h
    obtain ⟨k, v⟩ := kv
    have hpk : p ≠ k := fun he => hp (by simp [he])
    have hpr : p ∉ rest.map Prod.fst := fun hm => hp (by simp [hm])
    simp only [fixLoop] at h
    split at h
    next heq => exact ih _ _ _ _ _ hpr h
    next heq => simp at h
    next c heq =>
      split at h
      next hne => rw [ih _ _ _ _ _ hpr h, lookupKV_setValue_ne hpk]
      next hne => exact ih _ _ _ _ _ hpr h

theorem vendorLoop_lookup_path (fs : FS) (dir : String) :
    ∀ (es : List (String × String)) (files : List (String × String)) (upd : Bool)
      (out : List String) (r : List (String × String) × Bool × List String) (p : String),
      (∀ c', lookupKV (pathJoin dir p) fs ≠ some (FileData.readable c')) →
      fixLoop fs dir es files upd out = Except.ok r →
      lookupKV p r.1 = lookupKV p files := by
  intro es
  induction es with
  | nil =>
    intro files upd out r p _ h
    simp only [fixLoop, Except.ok.injEq] at h
    rw [← h]
  | cons kv rest ih =>
    intro files upd out r p hno h
    obtain ⟨k, v⟩ := kv
    simp only [fixLoop] at h
    split at h
    next heq => exact ih _ _ _ _ _ hno h
    next heq => simp at h
    next c heq =>
      have hpk : p ≠ k := by
        intro he
        exact hno c (he ▸ heq)
      split at h
      next hne => rw [ih _ _ _ _ _ hno h, lookupKV_setValue_ne hpk]
      next hne => exact ih _ _ _ _ _ hno h

theorem vendorLoop_missing_warns (fs : FS) (dir : String) :
    ∀ (es : List (String × String)) (files : List (String × String)) (upd : Bool)
      (out : List String) (r : List (String × String) × Bool × List String) (p : String),
      p ∈ es.map Prod.fst → lookupKV (pathJoin dir p) fs = none →
      fixLoop fs dir es files upd out = Except.ok r →
      ("Warning: File " ++ p ++ " listed in checksums but not found.") ∈ r.2.2 := by
  intro es
  induction es with
  | nil => intro files upd out r p hp; simp at hp
  | cons kv rest ih =>
    intro files upd out r p hp hmiss h
    obtain ⟨k, v⟩ := kv
    by_cases hkp : k = p
    · subst hkp
      simp only [fixLoop] at h
      split at h
      next heq =>
        obtain ⟨t, ht⟩ := vendorLoop_out_mono fs dir _ _ _ _ _ h
        rw [ht]
        simp
      next heq => rw [hmiss] at heq; simp at heq
      next c heq => rw [hmiss] at heq; simp at heq
    · have hpr : p ∈ rest.map Prod.fst := by
        simp only [List.map_cons, List.mem_cons] at hp
        rcases hp with he | hm
        · exact absurd he.symm hkp
        · exact hm
      simp only [fixLoop] at h
      split at h
      next heq => exact ih _ _ _ _ _ hpr hmiss h
      next heq => simp at h
      next c heq =>
        split at h
        next hne => exact ih _ _ _ _ _ hpr hmiss h
        next hne => exact ih _ _ _ _ _ hpr hmiss h

theorem vendorLoop_err_of_unreadable (fs : FS) (dir : String) :
    ∀ (es : List (String × String)) (files : List (String × String)) (upd : Bool)
      (out : List String) (p : String),
      p ∈ es.map Prod.fst → lookupKV (pathJoin dir p) fs = some FileData.unreadable →
      ∃ e, fixLoop fs dir es files upd out = Except.error e := by
  intro es
  induction es with
  | nil => intro files upd out p hp; simp at hp
  | cons kv rest ih =>
    intro files upd out p hp hbad
    obtain ⟨k, v⟩ := kv
    by_cases hkp : k = p
    · subst hkp
      simp only [fixLoop, hbad]
      exact ⟨out, rfl⟩
    · have hpr : p ∈ rest.map Prod.fst := by
        simp only [List.map_cons, List.mem_cons] at hp
        rcases hp with he | hm
        · exact absurd he.symm hkp
        · exact hm
      simp only [fixLoop]
      cases hfp : lookupKV (pathJoin dir k) fs with
      | none => exact ih _ _ _ _ hpr hbad
      | some fd =>
        cases fd with
        | readable c =>
          by_cases hne : calculate_sha256 c ≠ v
          · simpa [hne] using ih (setValue k (calculate_sha256 c) files) true
              (out ++ ["Updating checksum for " ++ k ++ ": " ++ v ++ " -> "
                        ++ calculate_sha256 c]) _ hpr hbad
          · simpa [hne] using ih files upd out _ hpr hbad
        | unreadable => exact ⟨out, rfl⟩

theorem vendorLoop_ok_of_no_unreadable (fs : FS) (dir : String) :
    ∀ (es : List (String × String)) (files : List (String × String)) (upd : Bool)
      (out : List String),
      (∀ k ∈ es.map Prod.fst, lookupKV (pathJoin dir k) fs ≠ some FileData.unreadable) →
      ∃ r, fixLoop fs dir es files upd out = Except.ok r := by
  intro es
  induction es with
  | nil => intro files upd out _; exact ⟨(files, upd, out), rfl⟩
  | cons kv rest ih =>
    intro files upd out hno
    obtain ⟨k, v⟩ := kv
    have hno2 : ∀ j ∈ rest.map Prod.fst, lookupKV (pathJoin dir j) fs ≠
        some FileData.unreadable := fun j hj => hno j (by simp [hj])
    simp only [fixLoop]
    cases hfp : lookupKV (pathJoin dir k) fs with
    | none => exact ih _ _ _ hno2
    | some fd =>
      cases fd with
      | readable c =>
        by_cases hne : calculate_sha256 c ≠ v
        · simpa [hne] using ih (setValue k (calculate_sha256 c) files) true
            (out ++ ["Updating checksum for " ++ k ++ ": " ++ v ++ " -> "
                      ++ calculate_sha256 c]) hno2
        · simpa [hne] using ih files upd out hno2
      | unreadable => exact absurd hfp (hno k (by simp))

theorem vendorLoop_flag_mono (fs : FS) (dir : String) :
    ∀ (es : List (String × String)) (files : List (String × String)) (out : List String)
      (r : List (String × String) × Bool × List String),
      fixLoop fs dir es files true out = Except.ok r → r.2.1 = true := by
  intro es
  induction es with
  | nil =>
    intro files out r h
    simp only [fixLoop, Except.ok.injEq] at h
    rw [← h]
  | cons kv rest ih =>
    intro files out r h
    obtain ⟨k, v⟩ := kv
    simp only [fixLoop] at h
    split at h
    next heq => exact ih _ _ _ h
    next heq => simp at h
    next c heq =>
      split at h
      next hne => exact ih _ _ _ h
      next hne => exact ih _ _ _ h

theorem vendorLoop_unchanged (fs : FS) (dir : String) :
    ∀ (es : List (String × String)) (files : List (String × String)) (upd : Bool)
      (out : List String) (r : List (String × String) × Bool × List String),
      fixLoop fs dir es files upd out = Except.ok r → r.2.1 = false →
      r.1 = files ∧ upd = false := by
  intro es
  induction es with
  | nil =>
    intro files upd out r h hflag
    simp only [fixLoop, Except.ok.injEq] at h
    rw [← h] at hflag ⊢
    exact ⟨rfl, hflag⟩
  | cons kv rest ih =>
    intro files upd out r h hflag
    obtain ⟨k, v⟩ := kv
    simp only [fixLoop] at h
    split at h
    next heq => exact ih _ _ _ _ h hflag
    next heq => simp at h
    next c heq =>
      split at h
      next hne => exact absurd (vendorLoop_flag_mono fs dir _ _ _ _ h) (by rw [hflag]; simp)
      next hne => exact ih _ _ _ _ h hflag

theorem vendorLoop_lookup_readable (fs : FS) (dir : String) :
    ∀ (es : List (String × String)) (files : List (String × String)) (upd : Bool)
      (out : List String) (r : List (String × String) × Bool × List String)
      (p : String) (c : List Nat),
      (es.map Prod.fst).Nodup →
      (∀ kv ∈ es, lookupKV kv.1 files = some kv.2) →
      p ∈ es.map Prod.fst →
      lookupKV (pathJoin dir p) fs = some (FileData.readable c) →
      fixLoop fs dir es files upd out = Except.ok r →
      lookupKV p r.1 = some (sha256hex c) := by
  intro es
  induction es with
  | nil => intro files upd out r p c _ _ hp; simp at hp
  | cons kv rest ih =>
    intro files upd out r p c hnd hagree hp hr h
    obtain ⟨k, v⟩ := kv
    simp only [List.map_cons, List.nodup_cons] at hnd
    by_cases hkp : k = p
    · subst hkp
      have hpr : k ∉ rest.map Prod.fst := hnd.1
      have hkv : lookupKV k files = some v := hagree (k, v) (List.mem_cons_self _ _)
      simp only [fixLoop] at h
      split at h
      next heq => rw [hr] at heq; simp at heq
      next heq => rw [hr] at heq; simp at heq
      next c2 heq =>
        rw [hr] at heq
        simp only [Option.some.injEq, FileData.readable.injEq] at heq
        subst heq
        split at h
        next hne =>
          rw [vendorLoop_lookup_notmem fs dir _ _ _ _ _ _ hpr h,
            lookupKV_setValue_self (lookupKV_mem_keys hkv), calculate_sha256_eq]
        next hne =>
          have hv : calculate_sha256 c = v := by
            by_contra hcon
            exact hne hcon
          rw [vendorLoop_lookup_notmem fs dir _ _ _ _ _ _ hpr h, hkv, ← hv, calculate_sha256_eq]
    · have hpr : p ∈ rest.map Prod.fst := by
        simp only [List.map_cons, List.mem_cons] at hp
        rcases hp with he | hm
        · exact absurd he.symm hkp
        · exact hm
      simp only [fixLoop] at h
      split at h
      next heq =>
        exact ih _ _ _ _ _ _ hnd.2 (fun kv2 hkv2 => hagree kv2 (List.mem_cons_of_mem _ hkv2))
          hpr hr h
      next heq => simp at h
      next c2 heq =>
        split at h
        next hne =>
          refine ih _ _ _ _ _ _ hnd.2 ?_ hpr hr h
          intro kv2 hkv2
          have hkne : kv2.1 ≠ k := by
            intro he
            exact hnd.1 (he ▸ List.mem_map.mpr ⟨kv2, hkv2, rfl⟩)
          rw [lookupKV_setValue_ne hkne]
          exact hagree kv2 (List.mem_cons_of_mem _ hkv2)
        next hne =>
          exact ih _ _ _ _ _ _ hnd.2 (fun kv2 hkv2 => hagree kv2 (List.mem_cons_of_mem _ hkv2))
            hpr hr h

end FixVendor

/-! ### Lemmas about the `fix_all_checksums.py` loop and tree walk -/

namespace FixAll

theorem allLoop_keys (fs : FS) (dir pkg : String) :
    ∀ (ks : List String) (files : List (String × String)) (mo : Bool) (out : List String),
      ((fixLoop fs dir pkg ks files mo out).1).map Prod.fst = files.map Prod.fst := by
  intro ks
  induction ks with
  | nil => intro files mo out; rfl
  | cons k rest ih =>
    intro files mo out
    cases hfp : lookupKV (pathJoin dir k) fs with
    | none => simp only [fixLoop, hfp]; exact ih _ _ _
    | some fd =>
      cases fd with
      | readable c =>
        cases hlk : lookupKV k files with
        | none => simp only [fixLoop, hfp, hlk]; exact ih _ _ _
        | some old =>
          simp only [fixLoop, hfp, hlk]
          by_cases hne : sha256_file c ≠ old
          · rw [if_pos hne, ih _ _ _, setValue_map_fst]
          · rw [if_neg hne]
            exact ih _ _ _
      | unreadable => simp only [fixLoop, hfp]; exact ih _ _ _

theorem allLoop_lookup_notmem (fs : FS) (dir pkg : String) :
    ∀ (ks : List String) (files : List (String × String)) (mo : Bool) (out : List String)
      (p : String), p ∉ ks →
      lookupKV p (fixLoop fs dir pkg ks files mo out).1 = lookupKV p files := by
  intro ks
  induction ks with
  | nil => intro files mo out p _; rfl
  | cons k rest ih =>
    intro files mo out p hp
    have hpk : p ≠ k := fun he => hp (he ▸ List.mem_cons_self k rest)
    have hpr : p ∉ rest := fun hm => hp (List.mem_cons_of_mem _ hm)
    cases hfp : lookupKV (pathJoin dir k) fs with
    | none => simp only [fixLoop, hfp]; exact ih _ _ _ _ hpr
    | some fd =>
      cases fd with
      | readable c =>
        cases hlk : lookupKV k files with
        | none => simp only [fixLoop, hfp, hlk]; exact ih _ _ _ _ hpr
        | some old =>
          simp only [fixLoop, hfp, hlk]
          by_cases hne : sha256_file c ≠ old
          · rw [if_pos hne, ih _ _ _ _ hpr, lookupKV_setValue_ne hpk]
          · rw [if_neg hne]
            exact ih _ _ _ _ hpr
      | unreadable => simp only [fixLoop, hfp]; exact ih _ _ _ _ hpr

theorem allLoop_lookup_path (fs : FS) (dir pkg : String) :
    ∀ (ks : List String) (files : List (String × String)) (mo : Bool) (out : List String)
      (p : String),
      (∀ c', lookupKV (pathJoin dir p) fs ≠ some (FileData.readable c')) →
      lookupKV p (fixLoop fs dir pkg ks files mo out).1 = lookupKV p files := by
  intro ks
  induction ks with
  | nil => intro files mo out p _; rfl
  | cons k rest ih =>
    intro files mo out p hno
    cases hfp : lookupKV (pathJoin dir k) fs with
    | none => simp only [fixLoop, hfp]; exact ih _ _ _ _ hno
    | some fd =>
      cases fd with
      | readable c =>
        have hpk : p ≠ k := by
          intro he
          exact hno c (he ▸ hfp)
        cases hlk : lookupKV k files with
        | none => simp only [fixLoop, hfp, hlk]; exact ih _ _ _ _ hno
        | some old =>
          simp only [fixLoop, hfp, hlk]
          by_cases hne : sha256_file c ≠ old
          · rw [if_pos hne, ih _ _ _ _ hno, lookupKV_setValue_ne hpk]
          · rw [if_neg hne]
            exact ih _ _ _ _ hno
      | unreadable => simp only [fixLoop, hfp]; exact ih _ _ _ _ hno

theorem allLoop_lookup_readable (fs : FS) (dir pkg : String) :
    ∀ (ks : List String) (files : List (String × String)) (mo : Bool) (out : List String)
      (p : String) (c : List Nat),
      p ∈ ks → (∀ k ∈ ks, k ∈ files.map Prod.fst) →
      lookupKV (pathJoin dir p) fs = some (FileData.readable c) →
      lookupKV p (fixLoop fs dir pkg ks files mo out).1 = some (sha256hex c) := by
  intro ks
  induction ks with
  | nil => intro files mo out p c hp; simp at hp
  | cons k rest ih =>
    intro files mo out p c hp hkeys hr
    have hkeys2 : ∀ j ∈ rest, j ∈ files.map Prod.fst :=
      fun j hj => hkeys j (List.mem_cons_of_mem _ hj)
    by_cases hkp : k = p
    · subst hkp
      obtain ⟨old, hold⟩ := lookupKV_isSome_of_mem_keys (hkeys k (List.mem_cons_self k rest))
      simp only [fixLoop, hr, hold]
      by_cases hne : sha256_file c ≠ old
      · rw [if_pos hne]
        by_cases hrest : k ∈ rest
        · refine ih _ _ _ _ _ hrest ?_ hr
          intro j hj
          rw [setValue_map_fst]
          exact hkeys2 j hj
        · rw [allLoop_lookup_notmem fs dir pkg _ _ _ _ _ hrest,
            lookupKV_setValue_self (lookupKV_mem_keys hold), sha256_file_eq]
      · rw [if_neg hne]
        have hold2 : sha256_file c = old := by
          by_contra hcon
          exact hne hcon
        by_cases hrest : k ∈ rest
        · exact ih _ _ _ _ _ hrest hkeys2 hr
        · rw [allLoop_lookup_notmem fs dir pkg _ _ _ _ _ hrest, hold, ← hold2, sha256_file_eq]
    · have hpr : p ∈ rest := by
        rcases List.mem_cons.mp hp with he | hm
        · exact absurd he.symm hkp
        · exact hm
      cases hfp : lookupKV (pathJoin dir k) fs with
      | none => simp only [fixLoop, hfp]; exact ih _ _ _ _ _ hpr hkeys2 hr
      | some fd =>
        cases fd with
        | readable c2 =>
          cases hlk : lookupKV k files with
          | none => simp only [fixLoop, hfp, hlk]; exact ih _ _ _ _ _ hpr hkeys2 hr
          | some old =>
            simp only [fixLoop, hfp, hlk]
            by_cases hne : sha256_file c2 ≠ old
            · rw [if_pos hne]
              refine ih _ _ _ _ _ hpr ?_ hr
              intro j hj
              rw [setValue_map_fst]
              exact hkeys2 j hj
            · rw [if_neg hne]
              exact ih _ _ _ _ _ hpr hkeys2 hr
        | unreadable => simp only [fixLoop, hfp]; exact ih _ _ _ _ _ hpr hkeys2 hr

theorem allLoop_flag_mono (fs : FS) (dir pkg : String) :
    ∀ (ks : List String) (files : List (String × String)) (out : List String),
      (fixLoop fs dir pkg ks files true out).2.1 = true := by
  intro ks
  induction ks with
  | nil => intro files out; rfl
  | cons k rest ih =>
    intro files out
    cases hfp : lookupKV (pathJoin dir k) fs with
    | none => simp only [fixLoop, hfp]; exact ih _ _
    | some fd =>
      cases fd with
      | readable c =>
        cases hlk : lookupKV k files with
        | none => simp only [fixLoop, hfp, hlk]; exact ih _ _
        | some old =>
          simp only [fixLoop, hfp, hlk]
          by_cases hne : sha256_file c ≠ old
          · rw [if_pos hne]
            exact ih _ _
          · rw [if_neg hne]
            exact ih _ _
      | unreadable => simp only [fixLoop, hfp]; exact ih _ _

theorem allLoop_unchanged (fs : FS) (dir pkg : String) :
    ∀ (ks : List String) (files : List (String × String)) (mo : Bool) (out : List String),
      (fixLoop fs dir pkg ks files mo out).2.1 = false →
      fixLoop fs dir pkg ks files mo out = (files, mo, out) := by
  intro ks
  induction ks with
  | nil => intro files mo out _; rfl
  | cons k rest ih =>
    intro files mo out hflag
    cases hfp : lookupKV (pathJoin dir k) fs with
    | none =>
      simp only [fixLoop, hfp] at hflag ⊢
      exact ih _ _ _ hflag
    | some fd =>
      cases fd with
      | readable c =>
        cases hlk : lookupKV k files with
        | none =>
          simp only [fixLoop, hfp, hlk] at hflag ⊢
          exact ih _ _ _ hflag
        | some old =>
          simp only [fixLoop, hfp, hlk] at hflag ⊢
          by_cases hne : sha256_file c ≠ old
          · rw [if_pos hne, allLoop_flag_mono fs dir pkg] at hflag
            simp at hflag
          · rw [if_neg hne] at hflag ⊢
            exact ih _ _ _ hflag
      | unreadable =>
        simp only [fixLoop, hfp] at hflag ⊢
        exact ih _ _ _ hflag

theorem allLoop_second_run (fs : FS) (dir pkg : String) :
    ∀ (ks : List String) (files : List (String × String)) (mo : Bool) (out : List String),
      (∀ k ∈ ks, lookupKV (pathJoin dir k) fs = none ∨
        lookupKV (pathJoin dir k) fs = some FileData.unreadable ∨
        ∃ c, lookupKV (pathJoin dir k) fs = some (FileData.readable c) ∧
          lookupKV k files = some (sha256hex c)) →
      fixLoop fs dir pkg ks files mo out = (files, mo, out) := by
  intro ks
  induction ks with
  | nil => intro files mo out _; rfl
  | cons k rest ih =>
    intro files mo out hall
    have hall2 := fun j hj => hall j (List.mem_cons_of_mem k hj)
    rcases hall k (List.mem_cons_self k rest) with hmiss | hunr | ⟨c, hread, hlkv⟩
    · simp only [fixLoop, hmiss]
      exact ih _ _ _ hall2
    · simp only [fixLoop, hunr]
      exact ih _ _ _ hall2
    · simp only [fixLoop, hread, hlkv]
      have heqh : sha256_file c = sha256hex c := sha256_file_eq c
      simp only [heqh, ne_eq, not_true_eq_false, if_false, ite_false]
      exact ih _ _ _ hall2

theorem processPackage_skip (fs : FS) (name : String) (pkg : Package)
    (h : pkg.manifest = none ∨ pkg.manifest = some none) :
    processPackage fs name pkg = (pkg, 0, []) := by
  obtain ⟨mf⟩ := pkg
  rcases h with h | h <;> simp only at h <;> subst h <;> rfl

theorem processPackage_second (fs : FS) (name : String) (pkg : Package) :
    processPackage fs name (processPackage fs name pkg).1 =
      ((processPackage fs name pkg).1, 0, []) := by
  obtain ⟨mf⟩ := pkg
  match mf with
  | none => rfl
  | some none => rfl
  | some (some data) =>
    rcases hL : fixLoop fs (pathJoin VENDOR_ROOT name) name (data.files.map Prod.fst)
      data.files false [] with ⟨files2, mo2, out2⟩
    cases mo2 with
    | true =>
      have hres : processPackage fs name ⟨some (some data)⟩ =
          (⟨some (some ⟨files2, data.extra⟩)⟩, 1, out2) := by
        simp [processPackage, hL]
      rw [hres]
      have hkeys2 : files2.map Prod.fst = data.files.map Prod.fst := by
        have h2 := allLoop_keys fs (pathJoin VENDOR_ROOT name) name (data.files.map Prod.fst)
          data.files false []
        rw [hL] at h2
        exact h2
      have hsecond : fixLoop fs (pathJoin VENDOR_ROOT name) name (files2.map Prod.fst)
          files2 false [] = (files2, false, []) := by
        apply allLoop_second_run
        intro k hk
        rw [hkeys2] at hk
        cases hfp : lookupKV (pathJoin (pathJoin VENDOR_ROOT name) k) fs with
        | none => exact Or.inl rfl
        | some fd =>
          cases fd with
          | readable c =>
            refine Or.inr (Or.inr ⟨c, rfl, ?_⟩)
            have h3 := allLoop_lookup_readable fs (pathJoin VENDOR_ROOT name) name
              (data.files.map Prod.fst) data.files false [] k c hk (fun j hj => hj) hfp
            rw [hL] at h3
            exact h3
          | unreadable => exact Or.inr (Or.inl rfl)
      simp [processPackage, hsecond]
    | false =>
      have hunch : fixLoop fs (pathJoin VENDOR_ROOT name) name (data.files.map Prod.fst)
          data.files false [] = (data.files, false, []) := by
        apply allLoop_unchanged
        rw [hL]
      have hres : processPackage fs name ⟨some (some data)⟩ = (⟨some (some data)⟩, 0, []) := by
        simp [processPackage, hunch]
      rw [hres]
      exact hres

theorem processEntries_append (fs : FS) (xs ys : List (String × DirEntry)) :
    processEntries fs (xs ++ ys) =
      ((processEntries fs xs).1 ++ (processEntries fs ys).1,
       (processEntries fs xs).2.1 + (processEntries fs ys).2.1,
       (processEntries fs xs).2.2 ++ (processEntries fs ys).2.2) := by
  induction xs with
  | nil => simp [processEntries]
  | cons e rest ih =>
    obtain ⟨name, de⟩ := e
    cases de with
    | plainFile =>
      simp only [List.cons_append, processEntries, List.append_eq, ih]
    | subdir pkg =>
      simp only [List.cons_append, processEntries, List.append_eq, ih]
      simp [Nat.add_assoc, List.append_assoc]

theorem processEntries_idem (fs : FS) (es : List (String × DirEntry)) :
    processEntries fs (processEntries fs es).1 = ((processEntries fs es).1, 0, []) := by
  induction es with
  | nil => rfl
  | cons e rest ih =>
    obtain ⟨name, de⟩ := e
    cases de with
    | plainFile => simp only [processEntries, ih]
    | subdir pkg =>
      simp only [processEntries, ih, processPackage_second]
      simp

theorem main_exit_zero (fs : FS) (root : Option (List (String × DirEntry))) :
    (FixAll.main fs root).exitCode = 0 := by
  cases root <;> rfl

end FixAll

/-! ### SHA-256 test vectors (NIST, FIPS 180-4) -/

theorem sha256hex_empty :
    sha256hex [] = "e3b0c44298fc1c149afbf4c8996fb92427ae41e4649b934ca495991b7852b855" := by
  decide

theorem sha256hex_abc :
    sha256hex [97, 98, 99] =
      "ba7816bf8f01cfea414140de5dae2223b00361a396177a9cb410ff61f20015ad" := by
  decide

/-! ### The claims -/

/-- C10: the two digest implementations — hashing the whole file content in
one `update` versus streaming it in 4096-byte chunks — compute the same
SHA-256 hex digest for every byte string, so the whole-tree and
single-package variants agree on every file's digest. -/
theorem C10_chunked_and_whole_digest_agree :
    ∀ content : List Nat, calculate_sha256 content = sha256_file content := by
  intro content
  rw [calculate_sha256_eq, sha256_file_eq]

/-- C9: when whole-tree mode is invoked and the fixed root directory does
not exist, the process prints a notice, performs no filesystem writes, and
exits with success status 0. -/
theorem C9_missing_root_is_silent_success :
    ∀ fs : FS, FixAll.main fs none =
      { root := none, writes := 0, out := ["No vendor directory found."], exitCode := 0 } := by
  intro fs
  rfl

/-- C3 counterexample: in single-directory mode, both variants print their
error message when the manifest file is absent but then `return`, so the
process exits with status 0, not non-zero as the claim states. -/
theorem C3_counterexample :
    (FixChecksums.main ["fix_checksums.py", "pkg"] [] none).exitCode = 0 ∧
    (FixChecksums.main ["fix_checksums.py", "pkg"] [] none).out =
      ["No checksum file found in pkg"] ∧
    (FixVendor.main ["fix_vendor_checksums.py", "pkg"] [] none).exitCode = 0 ∧
    (FixVendor.main ["fix_vendor_checksums.py", "pkg"] [] none).out =
      ["Error: pkg/.cargo-checksum.json not found."] := by
  refine ⟨by decide, by decide, by decide, by decide⟩

/-- C3 (amended): in single-directory mode, invoking the tool on a directory
that contains no manifest file prints an error message and returns without
touching anything; the process then exits with status 0 (the missing
manifest is reported but is not fatal). -/
theorem C3_missing_manifest_prints_error_exits_zero
    (argv : List String) (fs : FS) (dir : String)
    (h2 : 2 ≤ argv.length) (hdir : argv.getD 1 "" = dir) :
    FixChecksums.main argv fs none =
      ⟨["No checksum file found in " ++ dir], 0, none⟩ ∧
    FixVendor.main argv fs none =
      ⟨["Error: " ++ pathJoin dir ".cargo-checksum.json" ++ " not found."], 0, none⟩ := by
  constructor
  · simp only [FixChecksums.main, if_neg (Nat.not_lt.mpr h2), hdir]
    simp [FixChecksums.fix_checksums]
  · simp only [FixVendor.main, if_neg (Nat.not_lt.mpr h2), hdir]
    simp [FixVendor.fix_checksums]

/-- Witness for C3: concrete invocation with a present directory argument
and no manifest file. -/
theorem C3_missing_manifest_prints_error_exits_zero_witness :
    2 ≤ (["fix_checksums.py", "pkg"] : List String).length ∧
    FixChecksums.main ["fix_checksums.py", "pkg"] [] none =
      ⟨["No checksum file found in " ++ "pkg"], 0, none⟩ ∧
    FixVendor.main ["fix_checksums.py", "pkg"] [] none =
      ⟨["Error: " ++ pathJoin "pkg" ".cargo-checksum.json" ++ " not found."], 0, none⟩ :=
  ⟨by decide,
   (C3_missing_manifest_prints_error_exits_zero ["fix_checksums.py", "pkg"] [] "pkg"
      (by decide) (by decide)).1,
   (C3_missing_manifest_prints_error_exits_zero ["fix_checksums.py", "pkg"] [] "pkg"
      (by decide) (by decide)).2⟩

/-- C5: on a read failure for a listed file that exists, the whole-tree
variant swallows the error for that single file (its entry is left
unchanged), still processes every other listed file, and its loop is a total
function; the single-package variants propagate the same error as an
uncaught exception (`Except.error`), which makes the process exit with
status 1. -/
theorem C5_unreadable_file_tolerant_vs_fatal
    (fs : FS) (dir name : String) (data : Manifest) (p : String)
    (hmem : p ∈ data.files.map Prod.fst)
    (hunr : lookupKV (pathJoin dir p) fs = some FileData.unreadable) :
    lookupKV p (FixAll.fixLoop fs dir name (data.files.map Prod.fst) data.files false []).1
      = lookupKV p data.files ∧
    (∀ q c, q ∈ data.files.map Prod.fst →
      lookupKV (pathJoin dir q) fs = some (FileData.readable c) →
      lookupKV q (FixAll.fixLoop fs dir name (data.files.map Prod.fst)
        data.files false []).1 = some (sha256hex c)) ∧
    (∃ e, FixChecksums.fix_checksums fs dir (some (some data)) = Except.error e) ∧
    (∃ e, FixVendor.fix_checksums fs dir (some (some data)) = Except.error e) ∧
    (∀ prog, (FixChecksums.main [prog, dir] fs (some (some data))).exitCode = 1) ∧
    (∀ prog, (FixVendor.main [prog, dir] fs (some (some data))).exitCode = 1) := by
  have hnoread : ∀ c', lookupKV (pathJoin dir p) fs ≠ some (FileData.readable c') := by
    intro c' hc
    rw [hunr] at hc
    simp at hc
  obtain ⟨e1, he1⟩ := FixChecksums.fixLoop_err_of_unreadable fs dir
    (data.files.map Prod.fst) data.files false [] p hmem hunr
  obtain ⟨e2, he2⟩ := FixVendor.vendorLoop_err_of_unreadable fs dir
    data.files data.files false [] p hmem hunr
  have hstrict : FixChecksums.fix_checksums fs dir (some (some data)) = Except.error e1 := by
    simp [FixChecksums.fix_checksums, he1]
  have hvendor : FixVendor.fix_checksums fs dir (some (some data)) = Except.error e2 := by
    simp [FixVendor.fix_checksums, he2]
  refine ⟨?_, ?_, ⟨e1, hstrict⟩, ⟨e2, hvendor⟩, ?_, ?_⟩
  · exact FixAll.allLoop_lookup_path fs dir name _ _ _ _ _ hnoread
  · intro q c hq hr
    exact FixAll.allLoop_lookup_readable fs dir name _ _ _ _ _ _ hq (fun j hj => hj) hr
  · intro prog
    simp [FixChecksums.main, hstrict]
  · intro prog
    simp [FixVendor.main, hvendor]

/-- Witness for C5: one listed file exists but is unreadable. -/
theorem C5_unreadable_file_tolerant_vs_fatal_witness :
    ("a.txt" ∈ ([("a.txt", "x")].map (Prod.fst (β := String)))) ∧
    lookupKV (pathJoin "pkg" "a.txt") [("pkg/a.txt", FileData.unreadable)] =
      some FileData.unreadable ∧
    (∃ e, FixChecksums.fix_checksums [("pkg/a.txt", FileData.unreadable)] "pkg"
      (some (some ⟨[("a.txt", "x")], []⟩)) = Except.error e) :=
  ⟨by decide, by decide,
   (C5_unreadable_file_tolerant_vs_fatal [("pkg/a.txt", FileData.unreadable)] "pkg" "n"
      ⟨[("a.txt", "x")], []⟩ "a.txt" (by decide) (by decide)).2.2.1⟩

/-- C1: after a run of the per-package reconciliation (either single-package
variant) that terminated normally, every entry (path, digest) of the
resulting manifest's `files` map whose resolved file exists on disk and was
readable carries exactly the lowercase-hex SHA-256 digest of that file's
full byte content. -/
theorem C1_reconciled_digests_match_content
    (fs : FS) (dir : String) (data : Manifest) (o : Outcome)
    (hnd : (data.files.map Prod.fst).Nodup) :
    (FixChecksums.fix_checksums fs dir (some (some data)) = Except.ok o →
      ∀ m2, o.mfile = some (some m2) →
      ∀ p d c, (p, d) ∈ m2.files →
        lookupKV (pathJoin dir p) fs = some (FileData.readable c) → d = sha256hex c) ∧
    (FixVendor.fix_checksums fs dir (some (some data)) = Except.ok o →
      ∀ m2, o.mfile = some (some m2) →
      ∀ p d c, (p, d) ∈ m2.files →
        lookupKV (pathJoin dir p) fs = some (FileData.readable c) → d = sha256hex c) := by
  constructor
  · intro h m2 hm p d c hmem hread
    cases hL : FixChecksums.fixLoop fs dir (data.files.map Prod.fst) data.files false [] with
    | error e => simp [FixChecksums.fix_checksums, hL] at h
    | ok trip =>
      obtain ⟨files2, changed, out2⟩ := trip
      have hk2 : files2.map Prod.fst = data.files.map Prod.fst :=
        FixChecksums.fixLoop_keys fs dir _ _ _ _ _ hL
      cases changed with
      | true =>
        simp only [FixChecksums.fix_checksums, hL] at h
        rw [if_pos trivial, Except.ok.injEq] at h
        subst h
        simp only [Option.some.injEq] at hm
        subst hm
        have hp : p ∈ data.files.map Prod.fst := by
          rw [← hk2]
          exact List.mem_map.mpr ⟨(p, d), hmem, rfl⟩
        have hlr := FixChecksums.fixLoop_lookup_readable fs dir _ _ _ _ _ p c hp hread hL
        have hld : lookupKV p files2 = some d :=
          mem_lookupKV (hk2 ▸ hnd) hmem
        rw [hlr] at hld
        exact (Option.some.injEq _ _).mp hld |>.symm
      | false =>
        simp only [FixChecksums.fix_checksums, hL] at h
        rw [if_neg (by simp), Except.ok.injEq] at h
        subst h
        simp only [Option.some.injEq] at hm
        subst hm
        have hfe : files2 = data.files :=
          (FixChecksums.fixLoop_unchanged fs dir _ _ _ _ _ hL rfl).1
        have hp : p ∈ data.files.map Prod.fst := List.mem_map.mpr ⟨(p, d), hmem, rfl⟩
        have hlr := FixChecksums.fixLoop_lookup_readable fs dir _ _ _ _ _ p c hp hread hL
        rw [hfe] at hlr
        have hld : lookupKV p data.files = some d := mem_lookupKV hnd hmem
        rw [hlr] at hld
        exact (Option.some.injEq _ _).mp hld |>.symm
  · intro h m2 hm p d c hmem hread
    have hagree : ∀ kv ∈ data.files, lookupKV kv.1 data.files = some kv.2 := by
      intro kv hkv
      exact mem_lookupKV hnd (by rw [Prod.mk.eta]; exact hkv)
    cases hL : FixVendor.fixLoop fs dir data.files data.files false [] with
    | error e => simp [FixVendor.fix_checksums, hL] at h
    | ok trip =>
      obtain ⟨files2, upd, out2⟩ := trip
      have hk2 : files2.map Prod.fst = data.files.map Prod.fst :=
        FixVendor.vendorLoop_keys fs dir _ _ _ _ _ hL
      cases upd with
      | true =>
        simp only [FixVendor.fix_checksums, hL] at h
        rw [if_pos trivial, Except.ok.injEq] at h
        subst h
        simp only [Option.some.injEq] at hm
        subst hm
        have hp : p ∈ data.files.map Prod.fst := by
          rw [← hk2]
          exact List.mem_map.mpr ⟨(p, d), hmem, rfl⟩
        have hlr := FixVendor.vendorLoop_lookup_readable fs dir _ _ _ _ _ p c hnd hagree
          hp hread hL
        have hld : lookupKV p files2 = some d :=
          mem_lookupKV (hk2 ▸ hnd) hmem
        rw [hlr] at hld
        exact (Option.some.injEq _ _).mp hld |>.symm
      | false =>
        simp only [FixVendor.fix_checksums, hL] at h
        rw [if_neg (by simp), Except.ok.injEq] at h
        subst h
        simp only [Option.some.injEq] at hm
        subst hm
        have hfe : files2 = data.files :=
          (FixVendor.vendorLoop_unchanged fs dir _ _ _ _ _ hL rfl).1
        have hp : p ∈ data.files.map Prod.fst := List.mem_map.mpr ⟨(p, d), hmem, rfl⟩
        have hlr := FixVendor.vendorLoop_lookup_readable fs dir _ _ _ _ _ p c hnd hagree
          hp hread hL
        rw [hfe] at hlr
        have hld : lookupKV p data.files = some d := mem_lookupKV hnd hmem
        rw [hlr] at hld
        exact (Option.some.injEq _ _).mp hld |>.symm

/-- Witness for C1: a one-file package whose stored digest is stale; after
the run the stored digest is the SHA-256 of the file's content `[97]`. -/
theorem C1_reconciled_digests_match_content_witness :
    "ca978112ca1bbdcafac231b39a23dc4da786eff8147c4e72b9807785afee48bb" = sha256hex [97] :=
  (C1_reconciled_digests_match_content [("pkg/a.txt", FileData.readable [97])] "pkg"
      ⟨[("a.txt", "x")], []⟩
      ⟨some (some ⟨[("a.txt",
          "ca978112ca1bbdcafac231b39a23dc4da786eff8147c4e72b9807785afee48bb")], []⟩),
        true, ["Updating hash for a.txt", "Checksums updated."]⟩
      (by decide)).1 (by decide)
    ⟨[("a.txt", "ca978112ca1bbdcafac231b39a23dc4da786eff8147c4e72b9807785afee48bb")], []⟩
    (by decide) "a.txt"
    "ca978112ca1bbdcafac231b39a23dc4da786eff8147c4e72b9807785afee48bb" [97]
    (by decide) (by decide)

/-- C7: for every manifest containing fields other than `files`, a
reconciliation that triggers a rewrite writes back a manifest whose sibling
fields are exactly the original ones (no unknown field is dropped or
altered), in both single-package variants. -/
theorem C7_unknown_fields_roundtrip
    (fs : FS) (dir : String) (data : Manifest) (o : Outcome) :
    (FixChecksums.fix_checksums fs dir (some (some data)) = Except.ok o → o.wrote = true →
      ∃ f2, o.mfile = some (some ⟨f2, data.extra⟩)) ∧
    (FixVendor.fix_checksums fs dir (some (some data)) = Except.ok o → o.wrote = true →
      ∃ f2, o.mfile = some (some ⟨f2, data.extra⟩)) := by
  constructor
  · intro h hw
    cases hL : FixChecksums.fixLoop fs dir (data.files.map Prod.fst) data.files false [] with
    | error e => simp [FixChecksums.fix_checksums, hL] at h
    | ok trip =>
      obtain ⟨files2, changed, out2⟩ := trip
      cases changed with
      | true =>
        simp only [FixChecksums.fix_checksums, hL] at h
        rw [if_pos trivial, Except.ok.injEq] at h
        subst h
        exact ⟨files2, rfl⟩
      | false =>
        simp only [FixChecksums.fix_checksums, hL] at h
        rw [if_neg (by simp), Except.ok.injEq] at h
        subst h
        simp at hw
  · intro h hw
    cases hL : FixVendor.fixLoop fs dir data.files data.files false [] with
    | error e => simp [FixVendor.fix_checksums, hL] at h
    | ok trip =>
      obtain ⟨files2, upd, out2⟩ := trip
      cases upd with
      | true =>
        simp only [FixVendor.fix_checksums, hL] at h
        rw [if_pos trivial, Except.ok.injEq] at h
        subst h
        exact ⟨files2, rfl⟩
      | false =>
        simp only [FixVendor.fix_checksums, hL] at h
        rw [if_neg (by simp), Except.ok.injEq] at h
        subst h
        simp at hw

/-- Witness for C7: a manifest with an extra `package` field and a stale
digest; the rewrite keeps the extra field. -/
theorem C7_unknown_fields_roundtrip_witness :
    ∃ f2, (⟨some (some ⟨[("a.txt",
        "ca978112ca1bbdcafac231b39a23dc4da786eff8147c4e72b9807785afee48bb")],
        [("package", "cafe")]⟩), true,
        ["Updating hash for a.txt", "Checksums updated."]⟩ : Outcome).mfile =
      some (some ⟨f2, [("package", "cafe")]⟩) :=
  (C7_unknown_fields_roundtrip [("pkg/a.txt", FileData.readable [97])] "pkg"
      ⟨[("a.txt", "x")], [("package", "cafe")]⟩
      ⟨some (some ⟨[("a.txt",
          "ca978112ca1bbdcafac231b39a23dc4da786eff8147c4e72b9807785afee48bb")],
          [("package", "cafe")]⟩), true,
        ["Updating hash for a.txt", "Checksums updated."]⟩).1 (by decide) (by decide)

/-- C8: reconciliation preserves the key set (in fact the key list) of the
`files` mapping in both single-package variants: no entry is added and none
is deleted, including entries for files that no longer exist on disk. -/
theorem C8_file_list_keys_preserved
    (fs : FS) (dir : String) (data : Manifest) (o : Outcome) :
    (FixChecksums.fix_checksums fs dir (some (some data)) = Except.ok o →
      ∀ m2, o.mfile = some (some m2) →
        m2.files.map Prod.fst = data.files.map Prod.fst) ∧
    (FixVendor.fix_checksums fs dir (some (some data)) = Except.ok o →
      ∀ m2, o.mfile = some (some m2) →
        m2.files.map Prod.fst = data.files.map Prod.fst) := by
  constructor
  · intro h m2 hm
    cases hL : FixChecksums.fixLoop fs dir (data.files.map Prod.fst) data.files false [] with
    | error e => simp [FixChecksums.fix_checksums, hL] at h
    | ok trip =>
      obtain ⟨files2, changed, out2⟩ := trip
      have hk2 : files2.map Prod.fst = data.files.map Prod.fst :=
        FixChecksums.fixLoop_keys fs dir _ _ _ _ _ hL
      cases changed with
      | true =>
        simp only [FixChecksums.fix_checksums, hL] at h
        rw [if_pos trivial, Except.ok.injEq] at h
        subst h
        simp only [Option.some.injEq] at hm
        subst hm
        exact hk2
      | false =>
        simp only [FixChecksums.fix_checksums, hL] at h
        rw [if_neg (by simp), Except.ok.injEq] at h
        subst h
        simp only [Option.some.injEq] at hm
        subst hm
        rfl
  · intro h m2 hm
    cases hL : FixVendor.fixLoop fs dir data.files data.files false [] with
    | error e => simp [FixVendor.fix_checksums, hL] at h
    | ok trip =>
      obtain ⟨files2, upd, out2⟩ := trip
      have hk2 : files2.map Prod.fst = data.files.map Prod.fst :=
        FixVendor.vendorLoop_keys fs dir _ _ _ _ _ hL
      cases upd with
      | true =>
        simp only [FixVendor.fix_checksums, hL] at h
        rw [if_pos trivial, Except.ok.injEq] at h
        subst h
        simp only [Option.some.injEq] at hm
        subst hm
        exact hk2
      | false =>
        simp only [FixVendor.fix_checksums, hL] at h
        rw [if_neg (by simp), Except.ok.injEq] at h
        subst h
        simp only [Option.some.injEq] at hm
        subst hm
        rfl

/-- Witness for C8: the rewritten one-entry manifest lists exactly the same
relative path as before. -/
theorem C8_file_list_keys_preserved_witness :
    ([("a.txt", "ca978112ca1bbdcafac231b39a23dc4da786eff8147c4e72b9807785afee48bb")]
        : List (String × String)).map Prod.fst =
      ([("a.txt", "x")] : List (String × String)).map Prod.fst :=
  (C8_file_list_keys_preserved [("pkg/a.txt", FileData.readable [97])] "pkg"
      ⟨[("a.txt", "x")], []⟩
      ⟨some (some ⟨[("a.txt",
          "ca978112ca1bbdcafac231b39a23dc4da786eff8147c4e72b9807785afee48bb")], []⟩),
        true, ["Updating hash for a.txt", "Checksums updated."]⟩).1 (by decide)
    ⟨[("a.txt", "ca978112ca1bbdcafac231b39a23dc4da786eff8147c4e72b9807785afee48bb")], []⟩
    (by decide)

/-- Helper: a strict single-package run over a manifest that already
satisfies the digest invariant (every listed file missing or readable with a
matching stored digest) terminates normally, rewrites nothing, and reports
"No changes needed.". -/
theorem FixChecksums.fix_checksums_second_ok (fs : FS) (dir : String) (m1 : Manifest)
    (hgood : ∀ k ∈ m1.files.map Prod.fst, lookupKV (pathJoin dir k) fs = none ∨
      ∃ c, lookupKV (pathJoin dir k) fs = some (FileData.readable c) ∧
        lookupKV k m1.files = some (sha256hex c)) :
    ∃ out2, FixChecksums.fix_checksums fs dir (some (some m1)) =
      Except.ok ⟨some (some m1), false, out2⟩ ∧ "No changes needed." ∈ out2 := by
  obtain ⟨t, hsec⟩ := FixChecksums.fixLoop_second_run fs dir (m1.files.map Prod.fst)
    m1.files false [] hgood
  refine ⟨([] ++ t) ++ ["No changes needed."], ?_, by simp⟩
  simp only [FixChecksums.fix_checksums, hsec]
  rw [if_neg (by simp)]

/-- C6 counterexample: in the whole-tree variant a listed-but-missing file
produces no warning at all — the only output is the final summary line —
refuting "always emits a warning naming the missing file in any variant".
The entry is still left unchanged and nothing is written. -/
theorem C6_counterexample :
    FixAll.main []
      (some [("pkg", DirEntry.subdir ⟨some (some ⟨[("gone.txt", "x")], []⟩)⟩)]) =
      { root := some [("pkg", DirEntry.subdir ⟨some (some ⟨[("gone.txt", "x")], []⟩)⟩)],
        writes := 0, out := ["All checksums verified/updated."], exitCode := 0 } := by
  decide

/-- C6 (amended): for a manifest entry whose resolved file does not exist,
the two single-package variants emit a warning naming the missing file, the
whole-tree variant skips it silently; in every variant the entry's recorded
digest is left unchanged, and the condition is not fatal (a run whose listed
files are all readable or missing terminates normally in the strict
variants, and the whole-tree loop is total). -/
theorem C6_missing_file_warned_and_preserved
    (fs : FS) (dir name : String) (data : Manifest) (p : String)
    (hmem : p ∈ data.files.map Prod.fst)
    (hmiss : lookupKV (pathJoin dir p) fs = none) :
    (∀ o, FixChecksums.fix_checksums fs dir (some (some data)) = Except.ok o →
      ("File not found: " ++ p) ∈ o.out ∧
      ∀ m2, o.mfile = some (some m2) → lookupKV p m2.files = lookupKV p data.files) ∧
    (∀ o, FixVendor.fix_checksums fs dir (some (some data)) = Except.ok o →
      ("Warning: File " ++ p ++ " listed in checksums but not found.") ∈ o.out ∧
      ∀ m2, o.mfile = some (some m2) → lookupKV p m2.files = lookupKV p data.files) ∧
    ((∀ k ∈ data.files.map Prod.fst,
        lookupKV (pathJoin dir k) fs ≠ some FileData.unreadable) →
      (∃ o, FixChecksums.fix_checksums fs dir (some (some data)) = Except.ok o) ∧
      (∃ o, FixVendor.fix_checksums fs dir (some (some data)) = Except.ok o)) ∧
    lookupKV p (FixAll.fixLoop fs dir name (data.files.map Prod.fst)
      data.files false []).1 = lookupKV p data.files := by
  have hno : ∀ c', lookupKV (pathJoin dir p) fs ≠ some (FileData.readable c') := by
    intro c' hc
    rw [hmiss] at hc
    exact Option.noConfusion hc
  refine ⟨?_, ?_, ?_, ?_⟩
  · intro o h
    cases hL : FixChecksums.fixLoop fs dir (data.files.map Prod.fst) data.files false [] with
    | error e => simp [FixChecksums.fix_checksums, hL] at h
    | ok trip =>
      obtain ⟨files2, changed, out2⟩ := trip
      have hwarn : ("File not found: " ++ p) ∈ out2 :=
        FixChecksums.fixLoop_missing_warns fs dir _ _ _ _ _ p hmem hmiss hL
      have hpath : lookupKV p files2 = lookupKV p data.files :=
        FixChecksums.fixLoop_lookup_path fs dir _ _ _ _ _ p hno hL
      cases changed with
      | true =>
        simp only [FixChecksums.fix_checksums, hL] at h
        rw [if_pos trivial, Except.ok.injEq] at h
        subst h
        exact ⟨List.mem_append_left _ hwarn, fun m2 hm2 => by
          simp only [Option.some.injEq] at hm2
          rw [← hm2]
          exact hpath⟩
      | false =>
        simp only [FixChecksums.fix_checksums, hL] at h
        rw [if_neg (by simp), Except.ok.injEq] at h
        subst h
        exact ⟨List.mem_append_left _ hwarn, fun m2 hm2 => by
          simp only [Option.some.injEq] at hm2
          rw [← hm2]⟩
  · intro o h
    cases hL : FixVendor.fixLoop fs dir data.files data.files false [] with
    | error e => simp [FixVendor.fix_checksums, hL] at h
    | ok trip =>
      obtain ⟨files2, upd, out2⟩ := trip
      have hwarn : ("Warning: File " ++ p ++ " listed in checksums but not found.") ∈ out2 :=
        FixVendor.vendorLoop_missing_warns fs dir _ _ _ _ _ p hmem hmiss hL
      have hpath : lookupKV p files2 = lookupKV p data.files :=
        FixVendor.vendorLoop_lookup_path fs dir _ _ _ _ _ p hno hL
      cases upd with
      | true =>
        simp only [FixVendor.fix_checksums, hL] at h
        rw [if_pos trivial, Except.ok.injEq] at h
        subst h
        exact ⟨List.mem_append_left _ hwarn, fun m2 hm2 => by
          simp only [Option.some.injEq] at hm2
          rw [← hm2]
          exact hpath⟩
      | false =>
        simp only [FixVendor.fix_checksums, hL] at h
        rw [if_neg (by simp), Except.ok.injEq] at h
        subst h
        exact ⟨List.mem_append_left _ hwarn, fun m2 hm2 => by
          simp only [Option.some.injEq] at hm2
          rw [← hm2]⟩
  · intro hnoun
    constructor
    · obtain ⟨r, hr⟩ := FixChecksums.fixLoop_ok_of_no_unreadable fs dir
        (data.files.map Prod.fst) data.files false [] hnoun (fun k hk => hk)
      obtain ⟨f2, ch2, o2⟩ := r
      cases ch2 with
      | true =>
        refine ⟨⟨some (some ⟨f2, data.extra⟩), true, o2 ++ ["Checksums updated."]⟩, ?_⟩
        simp only [FixChecksums.fix_checksums, hr]
        rw [if_pos trivial]
      | false =>
        refine ⟨⟨some (some data), false, o2 ++ ["No changes needed."]⟩, ?_⟩
        simp only [FixChecksums.fix_checksums, hr]
        rw [if_neg (by simp)]
    · obtain ⟨r, hr⟩ := FixVendor.vendorLoop_ok_of_no_unreadable fs dir
        data.files data.files false [] hnoun
      obtain ⟨f2, u2, o2⟩ := r
      cases u2 with
      | true =>
        refine ⟨⟨some (some ⟨f2, data.extra⟩), true,
          o2 ++ ["Updated checksums in " ++ pathJoin dir ".cargo-checksum.json"]⟩, ?_⟩
        simp only [FixVendor.fix_checksums, hr]
        rw [if_pos trivial]
      | false =>
        refine ⟨⟨some (some data), false, o2 ++ ["No checksum mismatches found."]⟩, ?_⟩
        simp only [FixVendor.fix_checksums, hr]
        rw [if_neg (by simp)]
  · exact FixAll.allLoop_lookup_path fs dir name _ _ _ _ _ hno

/-- Witness for C6: one listed file, absent from disk; the strict run warns
and leaves the entry alone. -/
theorem C6_missing_file_warned_and_preserved_witness :
    ("File not found: " ++ "gone.txt") ∈
      (⟨some (some ⟨[("gone.txt", "x")], []⟩), false,
        ["File not found: gone.txt", "No changes needed."]⟩ : Outcome).out :=
  ((C6_missing_file_warned_and_preserved [] "pkg" "pkg" ⟨[("gone.txt", "x")], []⟩
      "gone.txt" (by decide) (by decide)).1
    ⟨some (some ⟨[("gone.txt", "x")], []⟩), false,
      ["File not found: gone.txt", "No changes needed."]⟩ (by decide)).1

/-- C2: reconciliation is idempotent.  For the single-package routine: if a
first run over a parsed manifest terminates normally and leaves manifest
state `m1` on disk, then a second run on `m1` over the same files performs
no write (`wrote = false`, manifest value unchanged) and reports
"No changes needed."; moreover the first run writes only when some listed
readable file's stored digest differed from the fresh digest.  For the
whole-tree script: a second run on the tree produced by a first run performs
zero manifest writes and leaves every manifest identical. -/
theorem C2_reconcile_idempotent
    (fs : FS) (dir : String) (data : Manifest) (o : Outcome) :
    (FixChecksums.fix_checksums fs dir (some (some data)) = Except.ok o →
      ∀ m1, o.mfile = some (some m1) →
        ∃ out2, FixChecksums.fix_checksums fs dir (some (some m1)) =
            Except.ok ⟨some (some m1), false, out2⟩ ∧ "No changes needed." ∈ out2) ∧
    (FixChecksums.fix_checksums fs dir (some (some data)) = Except.ok o → o.wrote = true →
      ∃ p c old, (p, old) ∈ data.files ∧
        lookupKV (pathJoin dir p) fs = some (FileData.readable c) ∧ old ≠ sha256hex c) ∧
    (∀ root, (FixAll.main fs (FixAll.main fs root).root).writes = 0 ∧
      (FixAll.main fs (FixAll.main fs root).root).root = (FixAll.main fs root).root) := by
  refine ⟨?_, ?_, ?_⟩
  · intro h m1 hm
    cases hL : FixChecksums.fixLoop fs dir (data.files.map Prod.fst) data.files false [] with
    | error e => simp [FixChecksums.fix_checksums, hL] at h
    | ok trip =>
      obtain ⟨files2, changed, out2⟩ := trip
      have hnoun : ∀ k ∈ data.files.map Prod.fst,
          lookupKV (pathJoin dir k) fs ≠ some FileData.unreadable := by
        intro k hk hbad
        obtain ⟨e, he⟩ := FixChecksums.fixLoop_err_of_unreadable fs dir
          (data.files.map Prod.fst) data.files false [] k hk hbad
        rw [hL] at he
        exact Except.noConfusion he
      have hkeys : files2.map Prod.fst = data.files.map Prod.fst :=
        FixChecksums.fixLoop_keys fs dir _ _ _ _ _ hL
      have hread2 : ∀ k ∈ data.files.map Prod.fst, ∀ c,
          lookupKV (pathJoin dir k) fs = some (FileData.readable c) →
          lookupKV k files2 = some (sha256hex c) := fun k hk c hc =>
        FixChecksums.fixLoop_lookup_readable fs dir _ _ _ _ _ k c hk hc hL
      have hgood : ∀ m1' : Manifest, m1'.files = files2 →
          ∀ k ∈ m1'.files.map Prod.fst, lookupKV (pathJoin dir k) fs = none ∨
            ∃ c, lookupKV (pathJoin dir k) fs = some (FileData.readable c) ∧
              lookupKV k m1'.files = some (sha256hex c) := by
        intro m1' hf k hk
        rw [hf, hkeys] at hk
        cases hfp : lookupKV (pathJoin dir k) fs with
        | none => exact Or.inl rfl
        | some fd =>
          cases fd with
          | readable c =>
            exact Or.inr ⟨c, rfl, by rw [hf]; exact hread2 k hk c hfp⟩
          | unreadable => exact absurd hfp (hnoun k hk)
      cases changed with
      | true =>
        simp only [FixChecksums.fix_checksums, hL] at h
        rw [if_pos trivial, Except.ok.injEq] at h
        subst h
        simp only [Option.some.injEq] at hm
        subst hm
        exact FixChecksums.fix_checksums_second_ok fs dir _ (hgood _ rfl)
      | false =>
        simp only [FixChecksums.fix_checksums, hL] at h
        rw [if_neg (by simp), Except.ok.injEq] at h
        subst h
        simp only [Option.some.injEq] at hm
        subst hm
        have hfe : files2 = data.files :=
          (FixChecksums.fixLoop_unchanged fs dir _ _ _ _ _ hL rfl).1
        exact FixChecksums.fix_checksums_second_ok fs dir _ (hgood _ hfe.symm)
  · intro h hw
    cases hL : FixChecksums.fixLoop fs dir (data.files.map Prod.fst) data.files false [] with
    | error e => simp [FixChecksums.fix_checksums, hL] at h
    | ok trip =>
      obtain ⟨files2, changed, out2⟩ := trip
      cases changed with
      | true =>
        obtain ⟨p, c, old, hp, hr, hl, hne⟩ :=
          FixChecksums.fixLoop_changed_witness fs dir _ _ _ _ hL rfl
        exact ⟨p, c, old, lookupKV_eq_some_mem hl, hr, hne⟩
      | false =>
        simp only [FixChecksums.fix_checksums, hL] at h
        rw [if_neg (by simp), Except.ok.injEq] at h
        subst h
        simp at hw
  · intro root
    cases root with
    | none => exact ⟨rfl, rfl⟩
    | some es =>
      have h1 : (FixAll.main fs (some es)).root = some (FixAll.processEntries fs es).1 := rfl
      rw [h1]
      constructor
      · show (FixAll.processEntries fs (FixAll.processEntries fs es).1).2.1 = 0
        rw [FixAll.processEntries_idem]
      · show some (FixAll.processEntries fs (FixAll.processEntries fs es).1).1 =
          some (FixAll.processEntries fs es).1
        rw [FixAll.processEntries_idem]

/-- Witness for C2: a first run updates the stale digest; the second run on
the written manifest reports "No changes needed." and rewrites nothing. -/
theorem C2_reconcile_idempotent_witness :
    ∃ out2, FixChecksums.fix_checksums [("pkg/a.txt", FileData.readable [97])] "pkg"
        (some (some ⟨[("a.txt",
          "ca978112ca1bbdcafac231b39a23dc4da786eff8147c4e72b9807785afee48bb")], []⟩)) =
      Except.ok ⟨some (some ⟨[("a.txt",
          "ca978112ca1bbdcafac231b39a23dc4da786eff8147c4e72b9807785afee48bb")], []⟩),
        false, out2⟩ ∧ "No changes needed." ∈ out2 :=
  (C2_reconcile_idempotent [("pkg/a.txt", FileData.readable [97])] "pkg"
      ⟨[("a.txt", "x")], []⟩
      ⟨some (some ⟨[("a.txt",
          "ca978112ca1bbdcafac231b39a23dc4da786eff8147c4e72b9807785afee48bb")], []⟩),
        true, ["Updating hash for a.txt", "Checksums updated."]⟩).1 (by decide)
    ⟨[("a.txt", "ca978112ca1bbdcafac231b39a23dc4da786eff8147c4e72b9807785afee48bb")], []⟩
    (by decide)

/-- C4 counterexample: a package whose manifest is present but malformed is
skipped with no console diagnostic at all — the run's entire output names
only the sibling update and the final summary — refuting the claim's
"caught and reported".  The sibling is still processed and the run exits
0. -/
theorem C4_counterexample :
    FixAll.main [("vendor/good/a.txt", FileData.readable [97])]
      (some [("bad", DirEntry.subdir ⟨some none⟩),
             ("good", DirEntry.subdir ⟨some (some ⟨[("a.txt", "x")], []⟩)⟩)]) =
      { root := some [("bad", DirEntry.subdir ⟨some none⟩),
                      ("good", DirEntry.subdir ⟨some (some ⟨[("a.txt",
                        "ca978112ca1bbdcafac231b39a23dc4da786eff8147c4e72b9807785afee48bb")],
                        []⟩)⟩)],
        writes := 1,
        out := ["Updating good/a.txt", "All checksums verified/updated."],
        exitCode := 0 } := by
  decide

/-- C4 (amended): in whole-tree mode a package whose manifest is missing or
malformed is caught and skipped silently (no diagnostic), its manifest is
left untouched, every sibling package is processed exactly as if the bad
package were absent, and the process always exits 0. -/
theorem C4_bad_package_skipped_silently
    (fs : FS) (xs ys : List (String × DirEntry)) (name : String) (pkg : Package)
    (hbad : pkg.manifest = none ∨ pkg.manifest = some none) :
    (FixAll.main fs (some (xs ++ (name, DirEntry.subdir pkg) :: ys))).exitCode = 0 ∧
    (FixAll.main fs (some (xs ++ (name, DirEntry.subdir pkg) :: ys))).out =
      (FixAll.main fs (some (xs ++ ys))).out ∧
    (FixAll.main fs (some (xs ++ (name, DirEntry.subdir pkg) :: ys))).writes =
      (FixAll.main fs (some (xs ++ ys))).writes ∧
    (FixAll.main fs (some (xs ++ (name, DirEntry.subdir pkg) :: ys))).root =
      some ((FixAll.processEntries fs xs).1 ++ (name, DirEntry.subdir pkg) ::
        (FixAll.processEntries fs ys).1) ∧
    (∀ root, (FixAll.main fs root).exitCode = 0) := by
  have hskip := FixAll.processPackage_skip fs name pkg hbad
  have hmid : FixAll.processEntries fs ((name, DirEntry.subdir pkg) :: ys) =
      ((name, DirEntry.subdir pkg) :: (FixAll.processEntries fs ys).1,
       (FixAll.processEntries fs ys).2.1, (FixAll.processEntries fs ys).2.2) := by
    simp [FixAll.processEntries, hskip]
  have hfull := FixAll.processEntries_append fs xs ((name, DirEntry.subdir pkg) :: ys)
  have hplain := FixAll.processEntries_append fs xs ys
  rw [hmid] at hfull
  refine ⟨rfl, ?_, ?_, ?_, FixAll.main_exit_zero fs⟩
  · show (FixAll.processEntries fs (xs ++ (name, DirEntry.subdir pkg) :: ys)).2.2 ++
      ["All checksums verified/updated."] =
      (FixAll.processEntries fs (xs ++ ys)).2.2 ++ ["All checksums verified/updated."]
    rw [hfull, hplain]
  · show (FixAll.processEntries fs (xs ++ (name, DirEntry.subdir pkg) :: ys)).2.1 =
      (FixAll.processEntries fs (xs ++ ys)).2.1
    rw [hfull, hplain]
  · show some (FixAll.processEntries fs (xs ++ (name, DirEntry.subdir pkg) :: ys)).1 =
      some ((FixAll.processEntries fs xs).1 ++ (name, DirEntry.subdir pkg) ::
        (FixAll.processEntries fs ys).1)
    rw [hfull]

/-- Witness for C4: a single malformed-manifest package in an otherwise
empty vendor tree. -/
theorem C4_bad_package_skipped_silently_witness :
    (FixAll.main [] (some ([] ++ ("bad", DirEntry.subdir ⟨some none⟩) :: []))).exitCode = 0 ∧
    (FixAll.main [] (some ([] ++ ("bad", DirEntry.subdir ⟨some none⟩) :: []))).out =
      (FixAll.main [] (some ([] ++ []))).out ∧
    (FixAll.main [] (some ([] ++ ("bad", DirEntry.subdir ⟨some none⟩) :: []))).writes =
      (FixAll.main [] (some ([] ++ []))).writes ∧
    (FixAll.main [] (some ([] ++ ("bad", DirEntry.subdir ⟨some none⟩) :: []))).root =
      some ((FixAll.processEntries [] []).1 ++ ("bad", DirEntry.subdir ⟨some none⟩) ::
        (FixAll.processEntries [] []).1) ∧
    (∀ root, (FixAll.main [] root).exitCode = 0) :=
  C4_bad_package_skipped_silently [] [] [] "bad" ⟨some none⟩ (Or.inr rfl)
